import Mathlib

/-!
# aliasman: the alias record model and the storage providers

A shallow embedding of `internal/alias` (`types.go`, `alias.go`, `aliases.go`) and the
properties of its operations: `Equal`, `Key`, `Less`, `StripData`, `Filter` on one record,
`ToMap`, `Diff`, `StripData` on a collection, `ToSlice`, `Add`, `Del` on the keyed map;
and of the storage providers of `internal/providers` (`s3`, `files`, `sqlite3`).

Conventions of the embedding

* Go strings are Lean strings; `<` on strings is the lexicographic order of both languages.
* A Go slice is a list; the nil slice and the empty slice are both `[]` (no operation modelled
  here tells them apart, except the nil result of `Aliases.StripData`, which is `none`).
* `time.Time` is an instant (whole seconds and nanoseconds within the second) together with
  a location, given by its offset from UTC. `Time.Equal` compares instants only. The
  monotonic clock reading that `time.Now()` attaches to a value is left out.
* `*regexp.Regexp` is a value carrying its `MatchString` function; a nil pointer is `none`.
* A Go map is an association list without duplicate keys (`AList`); the nil map is `none`.
  The order of the entries stands for the unspecified iteration order of `range`.
* A function that can panic returns the fault (if any) next to the state it leaves behind.
-/

set_option linter.dupNamespace false

namespace Aliasman

/-! ## Data model (`types.go`) -/

/-- Go `time.Time`: `sec` whole seconds since the zero time, `nsec` nanoseconds within
the second, `loc` the offset of the location from UTC in seconds. -/
structure Time where
  sec : Int
  nsec : Fin 1000000000
  loc : Int
deriving DecidableEq, Repr

/-- The zero value `time.Time{}`. -/
def Time.zero : Time := ⟨0, 0, 0⟩

/-- Go `Time.Equal`: the two values denote the same instant; locations are ignored. -/
def Time.Equal (t u : Time) : Bool :=
  t.sec == u.sec && t.nsec == u.nsec

/-- Go `Time.IsZero`. -/
def Time.IsZero (t : Time) : Bool :=
  t.sec == 0 && t.nsec == 0

/-- Alias represents the state necessary for an email alias. -/
structure Alias where
  Alias : String
  Domain : String
  EmailAddresses : List String
  Description : String
  Suspended : Bool
  CreatedTS : Time
  ModifiedTS : Time
  SuspendedTS : Time
deriving DecidableEq, Repr

/-- The zero value `Alias{}`. -/
def Alias.zero : Aliasman.Alias := ⟨"", "", [], "", false, Time.zero, Time.zero, Time.zero⟩

/-- Aliases represents a slice of Alias structs. -/
abbrev Aliases := List Alias

/-- AliasesMap represents a map of Alias structs, keyed by a string; `none` is the nil map. -/
abbrev AliasesMap := Option (AList (fun _ : String => Alias))

/-- A compiled regular expression, known by its `MatchString` method. -/
structure Regexp where
  MatchString : String → Bool

/-- Filter is the settings for filtering aliases. -/
structure Filter where
  Alias : Option Regexp
  Domain : Option Regexp
  EmailAddress : Option Regexp
  Description : Option Regexp
  ExcludeSuspended : Bool
  ExcludeEnabled : Bool

/-- The zero value `Filter{}`. -/
def Filter.zero : Filter := ⟨none, none, none, none, false, false⟩

/-! ## One record (`alias.go`) -/

/-- Modelled from the spec: `toolbox.StringSliceEqual` is imported from the module
`github.com/patsoffice/toolbox`, whose source is not part of the tree. The two sequences hold
the same strings in the same order. -/
def StringSliceEqual : List String → List String → Bool
  | [], [] => true
  | x :: xs, y :: ys => x == y && StringSliceEqual xs ys
  | _, _ => false

/-- `Alias.Equal`: all fields are checked for equality and all of them must match. -/
def Alias.Equal (a b : Aliasman.Alias) : Bool :=
  if a.Alias != b.Alias || a.Domain != b.Domain || a.Description != b.Description
      || a.Suspended != b.Suspended then
    false
  else if !a.CreatedTS.Equal b.CreatedTS || !a.ModifiedTS.Equal b.ModifiedTS
      || !a.SuspendedTS.Equal b.SuspendedTS then
    false
  else if !StringSliceEqual a.EmailAddresses b.EmailAddresses then
    false
  else
    true

/-- `Alias.Key`: `fmt.Sprintf("%s@%s", a.Alias, a.Domain)`. -/
def Alias.Key (a : Aliasman.Alias) : String :=
  a.Alias ++ "@" ++ a.Domain

/-- Go's `<` on strings is decided by comparing the two character sequences
lexicographically; this instance lets the comparison be evaluated on concrete strings. -/
instance strLtDecidable (s t : String) : Decidable (s < t) :=
  decidable_of_iff (s.toList < t.toList) String.lt_iff_toList_lt.symm

/-- `Aliases.Less`, on the two records at the compared positions. -/
def Less (a b : Alias) : Bool :=
  if a.Domain < b.Domain then true
  else if a.Domain > b.Domain then false
  else decide (a.Alias < b.Alias)

/-- `Alias.Fields`: the field names of the struct, in declaration order. -/
def Alias.Fields : List String :=
  ["Alias", "Domain", "EmailAddresses", "Description", "Suspended",
   "CreatedTS", "ModifiedTS", "SuspendedTS"]

/-- The body of the loop of `Alias.StripData`: `FieldByName(name)` on source and
destination, then `field.Set(value)` when the field exists (every field of the struct is
exported and the destination is addressable, so an existing field can be set); `none` when
there is no such field (`CanSet` is false on the zero `reflect.Value`). -/
def setField (src dest : Alias) (name : String) : Option Alias :=
  if name = "Alias" then some { dest with Alias := src.Alias }
  else if name = "Domain" then some { dest with Domain := src.Domain }
  else if name = "EmailAddresses" then some { dest with EmailAddresses := src.EmailAddresses }
  else if name = "Description" then some { dest with Description := src.Description }
  else if name = "Suspended" then some { dest with Suspended := src.Suspended }
  else if name = "CreatedTS" then some { dest with CreatedTS := src.CreatedTS }
  else if name = "ModifiedTS" then some { dest with ModifiedTS := src.ModifiedTS }
  else if name = "SuspendedTS" then some { dest with SuspendedTS := src.SuspendedTS }
  else none

/-- The loop of `Alias.StripData` from the destination `s` on: returns the record and the
error, `(Alias{}, err)` at the first name that cannot be set. -/
def stripLoop (a : Alias) : Alias → List String → Alias × Option String
  | s, [] => (s, none)
  | s, name :: rest =>
    match setField a s name with
    | some s' => stripLoop a s' rest
    | none => (Alias.zero, some ("cannot set field " ++ name))

/-- `Alias.StripData`: the record with only the named fields set, and the error. -/
def Alias.StripData (a : Aliasman.Alias) (fields : List String) :
    Aliasman.Alias × Option String :=
  stripLoop a Alias.zero fields

/-- `Alias.Filter`. -/
def Alias.Filter (a : Aliasman.Alias) (filter : Aliasman.Filter) (matchAnyRegexp : Bool) :
    Bool :=
  let foundAlias :=
    match filter.Alias with
    | some r => if !r.MatchString a.Alias then false else true
    | none => true
  let foundDomain :=
    match filter.Domain with
    | some r => if !r.MatchString a.Domain then false else true
    | none => true
  let foundEmailAddress :=
    match filter.EmailAddress with
    | some r => a.EmailAddresses.foldl (fun matchAny emailAddress =>
        matchAny || r.MatchString emailAddress) false
    | none => true
  let foundDescription :=
    match filter.Description with
    | some r => if !r.MatchString a.Description then false else true
    | none => true
  let includeSuspended := if filter.ExcludeSuspended && a.Suspended then false else true
  let includeEnabled := if filter.ExcludeEnabled && !a.Suspended then false else true
  if matchAnyRegexp then
    ((foundAlias || foundDomain || foundEmailAddress || foundDescription)
      && includeSuspended && includeEnabled)
  else
    (foundAlias && foundDomain && foundEmailAddress && foundDescription
      && includeSuspended && includeEnabled)

/-! ## Collections and the keyed map (`aliases.go`) -/

/-- The order `sort.Sort` arranges a collection in: `a` may stand before `b` when
`Less b a` is false. -/
def NotAfter (a b : Alias) : Prop := Less b a = false

instance notAfterDecidable : DecidableRel NotAfter :=
  fun a b => inferInstanceAs (Decidable (Less b a = false))

/-- Go `sort.Sort` on an `Aliases` value (`Len`, `Swap`, `Less` of `alias.go`): the records
rearranged so that no record is `Less` than one before it. The standard library does not
fix the order of records that `Less` does not separate; this is an insertion sort. -/
def sortAliases (s : Aliases) : Aliases :=
  s.insertionSort NotAfter

/-- The entry `m[k]` of a map read with the two-value form: `none` when absent, also on
the nil map. -/
def AliasesMap.get (m : AliasesMap) (k : String) : Option Alias :=
  match m with
  | none => none
  | some l => l.lookup k

/-- The entries `for k, a := range m` visits. -/
def AliasesMap.range (m : AliasesMap) : List (String × Alias) :=
  match m with
  | none => []
  | some l => l.entries.map (fun e => (e.1, e.2))

/-- `Aliases.ToMap` transforms an Aliases type to an AliasesMap type: `m[a.Key()] = a`
for each record in turn. -/
def Aliases.ToMap (s : Aliases) : AliasesMap :=
  some (s.foldl (fun m a => m.insert a.Key a) ∅)

/-- `Aliases.Diff`: the records of `s` not in common with `s2`, sorted. -/
def Aliases.Diff (s s2 : Aliases) : Aliases :=
  let m1 := Aliases.ToMap s
  let m2 := Aliases.ToMap s2
  let diff := m1.range.foldl (fun (diff : Aliases) e =>
    match m2.get e.1 with
    | none => diff ++ [e.2]
    | some b => if !(e.2.Equal b) then diff ++ [e.2] else diff) []
  sortAliases diff

/-- The loop of `Aliases.StripData`: `dest` holds the records stripped so far. The result is
the stripped collection (`none` is the nil slice) and the error. -/
def stripDataLoop (names : List String) : Aliases → Aliases → Option Aliases × Option String
  | dest, [] => (some dest, none)
  | dest, a :: rest =>
    match a.StripData names with
    | (_, some err) => (none, some err)
    | (stripped, none) => stripDataLoop names (dest ++ [stripped]) rest

/-- `Aliases.StripData`: `Alias.StripData` applied to all elements. -/
def Aliases.StripData (s : Aliases) (names : List String) : Option Aliases × Option String :=
  stripDataLoop names [] s

/-- `AliasesMap.ToSlice` transforms an AliasesMap type to an Aliases type, sorted. -/
def AliasesMap.ToSlice (m : AliasesMap) : Aliases :=
  sortAliases (m.range.map (fun e => e.2))

/-- `AliasesMap.Add` adds an Alias to an AliasMap type. Returns the map as the call leaves
it and the value of the panic, `none` when the call returns normally. -/
def AliasesMap.Add (m : AliasesMap) (a : Alias) : AliasesMap × Option String :=
  match m with
  | none => (none, none)
  | some l =>
    let k := a.Key
    match l.lookup k with
    | some _ => (some l, some ("key " ++ k ++ " already exists in AliasesMap"))
    | none => (some (l.insert k a), none)

/-- `AliasesMap.Del` removes an Alias from an AliasMap type. -/
def AliasesMap.Del (m : AliasesMap) (a : Alias) : AliasesMap :=
  match m with
  | none => none
  | some l =>
    let k := a.Key
    match l.lookup k with
    | some _ => some (l.erase k)
    | none => some l

/-! ## Calls that touch a backend

The storage providers are embedded as state transformers that also record the requests
they send to their backend (S3, the file system, the database), in order. What the backend
answers is a parameter of the model (`svc`, `os`, `db` below); so are the library functions
the code uses without the repository defining them (`Lib`). A Go `error` is a value of
`Err`; a pointer that may be nil is an `Option`. Pointers the AWS SDK fills in (object keys,
modification times, metadata values, ETag) are taken to be non-nil. -/

/-- A Go `error`: its text and, when it is an `awserr.Error`, its code. -/
structure Err where
  code : Option String
  msg : String
deriving DecidableEq, Repr

/-- `errors.New(msg)`, `fmt.Errorf(msg)`. -/
def Err.new (msg : String) : Err := ⟨none, msg⟩

/-- The course of a call: it returned `v`, or it panicked; `s` is the state it leaves
behind and `calls` the backend requests it issued, in order. -/
inductive Res (σ κ α : Type) where
  | done (v : α) (s : σ) (calls : List κ)
  | panic (msg : String) (s : σ) (calls : List κ)

/-- The state a call leaves behind. -/
def Res.state {σ κ α : Type} : Res σ κ α → σ
  | .done _ s _ => s
  | .panic _ s _ => s

/-- The backend requests a call issued. -/
def Res.calls {σ κ α : Type} : Res σ κ α → List κ
  | .done _ _ c => c
  | .panic _ _ c => c

/-- The value a call returned, `none` if it panicked. -/
def Res.value {σ κ α : Type} : Res σ κ α → Option α
  | .done v _ _ => some v
  | .panic _ _ _ => none

/-- A method with receiver state `σ` that issues backend requests `κ` and returns `α`. -/
def Op (σ κ α : Type) : Type := σ → Res σ κ α

/-- Return `v`. -/
def Op.pure {σ κ α : Type} (v : α) : Op σ κ α := fun s => .done v s []

/-- The course of a call that follows the backend requests `pre`. -/
def Res.prepend {σ κ α : Type} (pre : List κ) : Res σ κ α → Res σ κ α
  | .done v s c => .done v s (pre ++ c)
  | .panic msg s c => .panic msg s (pre ++ c)

/-- Run `m`, then `f` on its value unless `m` panicked. -/
def Op.bind {σ κ α β : Type} (m : Op σ κ α) (f : α → Op σ κ β) : Op σ κ β := fun s =>
  match m s with
  | .done v s' c => (f v s').prepend c
  | .panic msg s' c => .panic msg s' c

instance opMonad {σ κ : Type} : Monad (Op σ κ) where
  pure := Op.pure
  bind := Op.bind

/-- Read the receiver. -/
def Op.get {σ κ : Type} : Op σ κ σ := fun s => .done s s []

/-- Assign to the receiver. -/
def Op.set {σ κ : Type} (s' : σ) : Op σ κ Unit := fun _ => .done () s' []

/-- Send the request `k` to the backend. -/
def Op.call {σ κ : Type} (k : κ) : Op σ κ Unit := fun s => .done () s [k]

/-- A run-time panic. -/
def Op.panic {σ κ α : Type} (msg : String) : Op σ κ α := fun s => .panic msg s []

/-- Go `Time.UTC`: the same instant with the location set to UTC. -/
def Time.UTC (t : Time) : Time := { t with loc := 0 }

/-- Go `Time.Before`: the instant of `t` is earlier than that of `u`. -/
def Time.Before (t u : Time) : Bool :=
  decide (t.sec < u.sec) || (t.sec == u.sec && decide (t.nsec < u.nsec))

/-- `util.Clock`: a value with a `Now` method. A call is embedded as instantaneous: all
readings of the clock within it give the same time. -/
structure Clock where
  Now : Time

/-- Go `strings.HasPrefix`. -/
def HasPrefix (s pre : String) : Bool :=
  pre.toList.isPrefixOf s.toList

/-- Go `strings.Join(elems, ",")`. -/
def joinComma : List String → String
  | [] => ""
  | [x] => x
  | x :: y :: rest => x ++ "," ++ joinComma (y :: rest)

/-- Splitting of a character sequence at every `c`. -/
def splitChars (c : Char) : List Char → List (List Char)
  | [] => [[]]
  | x :: xs =>
    if x = c then [] :: splitChars c xs
    else
      match splitChars c xs with
      | [] => [[x]]
      | h :: t => (x :: h) :: t

/-- Go `strings.Split(s, ",")`. -/
def splitComma (s : String) : List String :=
  (splitChars ',' s.toList).map String.mk

/-- Go `strings.Trim(s, "\"")`: leading and trailing double quotes removed. -/
def trimQuotes (s : String) : String :=
  String.mk (((s.toList.dropWhile (fun c => c == '"')).reverse.dropWhile
    (fun c => c == '"')).reverse)

/-- An object's metadata, `map[string]*string`. -/
abbrev Metadata := List (String × String)

/-- The entry `m[k]` of a metadata map, `none` when absent. -/
def Metadata.get (m : Metadata) (k : String) : Option String :=
  m.lookup k

namespace S3

/-- `metadataTime` is `time.Time` under another name. -/
abbrev metadataTime := Time

/-- IndexAlias represents an alias as stored in the S3 index blob. -/
structure IndexAlias where
  Alias : String
  Domain : String
  EmailAddresses : List String
  Description : String
  Suspended : Bool
  CreatedTS : metadataTime
  ModifiedTS : metadataTime
  SuspendedTS : metadataTime
deriving DecidableEq, Repr

/-- IndexAliases represent an array of aliases in the S3 index blob. -/
abbrev IndexAliases := List IndexAlias

/-- `IndexAlias.ToAlias` converts the internal S3 representation of an alias to an Alias. -/
def IndexAlias.ToAlias (ia : IndexAlias) : Aliasman.Alias :=
  { Alias := ia.Alias
    Domain := ia.Domain
    EmailAddresses := ia.EmailAddresses
    Description := ia.Description
    Suspended := ia.Suspended
    CreatedTS := ia.CreatedTS
    ModifiedTS := ia.ModifiedTS
    SuspendedTS := ia.SuspendedTS }

/-- `IndexAlias.FromAlias` converts an Alias to an internal S3 representation of an alias:
the record `ia` after the call. -/
def IndexAlias.FromAlias (_ia : IndexAlias) (a : Aliasman.Alias) : IndexAlias :=
  { Alias := a.Alias
    Domain := a.Domain
    EmailAddresses := a.EmailAddresses
    Description := a.Description
    Suspended := a.Suspended
    CreatedTS := a.CreatedTS
    ModifiedTS := a.ModifiedTS
    SuspendedTS := a.SuspendedTS }

/-- The zero value `IndexAlias{}`. -/
def IndexAlias.zero : IndexAlias := ⟨"", "", [], "", false, Time.zero, Time.zero, Time.zero⟩

/-- Library functions the S3 provider calls: `time.Parse(time.RFC3339, _)` (`none` when it
returns an error), `Time.Format(time.RFC3339)`, the JSON decoding of the index body into
`IndexAliases` and its encoding by `json.MarshalIndent` (both go through the JSON methods
of `metadataTime`, which the tree does not contain), and the hexadecimal MD5 digest
`fmt.Sprintf("%x", md5.Sum(b))`. -/
structure Lib where
  parseRFC3339 : String → Option Time
  formatRFC3339 : Time → String
  decodeIndex : String → Except Err IndexAliases
  marshalIndex : IndexAliases → Except Err String
  md5hex : String → String

/-- `s3.Object`, the two fields the provider reads. -/
structure Object where
  Key : String
  LastModified : Time
deriving DecidableEq, Repr

/-- `s3.PutObjectInput` (the bucket is that of the Storer). -/
structure PutObjectInput where
  Key : String
  Body : String
  Metadata : Aliasman.Metadata
deriving DecidableEq, Repr

/-- Requests sent to S3. -/
inductive Call where
  | listObjects
  | getObject (key : String)
  | headObject (key : String)
  | putObject (input : PutObjectInput)
  | deleteObject (key : String)
deriving DecidableEq, Repr

/-- The answers of the S3 service (`s3iface.S3API`): the listing gives the objects of the
pages handed to the callback and the error that ended it, if any; `GetObject` gives the
body and the ETag; `HeadObject` gives the metadata. -/
structure API where
  ListObjectsV2Pages : List Object × Option Err
  GetObject : String → Except Err (String × String)
  HeadObject : String → Except Err Aliasman.Metadata
  PutObject : PutObjectInput → Option Err
  DeleteObject : String → Option Err

/-- Storer implements the storage provider methods and state for the s3 provider. The
channels and wait groups of the full scan are not state of the model: the scan is run
for one key after the other (at least one worker is assumed, `concurrentHeads ≥ 1`). -/
structure Storer where
  readOnly : Bool
  clock : Clock
  aliases : AliasesMap
  objects : List Object
  svc : API
  lib : Lib
  indexMD5 : String

/-- `objects.Less`, on the two objects at the compared positions. -/
def Object.Less (oi oj : Object) : Bool :=
  if oj.LastModified.Equal oi.LastModified then decide (oi.Key < oj.Key)
  else oi.LastModified.Before oj.LastModified

/-- Go `sort.Sort(sort.Reverse(s.objects))`: `sort.Reverse` swaps the arguments of `Less`,
so an object may stand before another when it is not `Less` than it. An insertion sort, as
for `sortAliases`. -/
def sortReverse (o : List Object) : List Object :=
  o.insertionSort (fun a b => Object.Less a b = false)

/-- `Storer.listKeys` performs a paginated list of the keys in the bucket. -/
def Storer.listKeys : Op Storer Call (Option Err) := fun s =>
  .done s.svc.ListObjectsV2Pages.2
    { s with objects := s.objects ++ s.svc.ListObjectsV2Pages.1 } [Call.listObjects]

/-- `Storer.parseTS` parses the timestamp stored in the S3 metadata. -/
def Storer.parseTS (s : Storer) (m : Aliasman.Metadata) (key : String) : Time :=
  match m.get key with
  | some ts =>
    match s.lib.parseRFC3339 ts with
    | some parsedTS => parsedTS
    | none => s.clock.Now.UTC
  | none => s.clock.Now.UTC

/-- The dereference `*res.Metadata[k]`: a panic when the key is absent. -/
def derefMetadata (m : Aliasman.Metadata) (k : String) : Op Storer Call String :=
  match m.get k with
  | some v => Op.pure v
  | none => Op.panic "invalid memory address or nil pointer dereference"

/-- `Storer.headS3Key`: the pointer to the record (`none` is nil) and the error. -/
def Storer.headS3Key (key : String) : Op Storer Call (Option Aliasman.Alias × Option Err) := do
  Op.call (Call.headObject key)
  let s ← Op.get
  match s.svc.HeadObject key with
  | .error err =>
    if err.code = some "NotFound" then pure (none, none)
    else pure (none, some err)
  | .ok metadata =>
    let createdTS := s.parseTS metadata "Created_ts"
    let modifiedTS := s.parseTS metadata "Modified_ts"
    let suspendedTS := s.parseTS metadata "Suspended_ts"
    let alias' ← derefMetadata metadata "Alias"
    let domain ← derefMetadata metadata "Domain"
    let emailAddresses ← derefMetadata metadata "Email_addresses"
    let description ← derefMetadata metadata "Description"
    let suspended ← derefMetadata metadata "Suspended"
    pure (some
      { Alias := alias'
        Domain := domain
        EmailAddresses := splitComma emailAddresses
        Description := description
        Suspended := "true" == suspended
        CreatedTS := createdTS
        ModifiedTS := modifiedTS
        SuspendedTS := suspendedTS }, none)

/-- The call `s.aliases.Add(a)` on the Storer's map. -/
def Storer.addAlias (a : Aliasman.Alias) : Op Storer Call Unit := fun s =>
  match s.aliases.Add a with
  | (m, none) => .done () { s with aliases := m } []
  | (m, some msg) => .panic msg { s with aliases := m } []

/-- The call `s.aliases.Del(a)` on the Storer's map. -/
def Storer.delAlias (a : Aliasman.Alias) : Op Storer Call Unit := fun s =>
  .done () { s with aliases := s.aliases.Del a } []

/-- `Storer.getAliases`, the full scan, over the objects still to be visited: every key
with the prefix `alias-` goes through `headAlias` (`headS3Key`, the error is printed, the
pointer is sent on) and `assembleAliases` (`s.aliases.Add(*a)`, a panic on the nil pointer). -/
def Storer.getAliases : List Object → Op Storer Call Unit
  | [] => pure ()
  | o :: rest =>
    if HasPrefix o.Key "alias-" then do
      let r ← Storer.headS3Key o.Key
      match r.1 with
      | none => Op.panic "invalid memory address or nil pointer dereference"
      | some a => Storer.addAlias a
      Storer.getAliases rest
    else Storer.getAliases rest

/-- The loop state of `indexBeforeAliasCount`. -/
structure IndexScan where
  aliasCount : Nat
  indexBeforeAlias : Bool
  foundAlias : Bool
deriving DecidableEq, Repr

/-- The body of the loop of `indexBeforeAliasCount`. -/
def indexStep (st : IndexScan) (o : Object) : IndexScan :=
  let st1 :=
    if !st.indexBeforeAlias && !st.foundAlias then
      if "index" = o.Key then { st with indexBeforeAlias := true } else st
    else st
  if HasPrefix o.Key "alias-" then
    { st1 with foundAlias := true, aliasCount := st1.aliasCount + 1 }
  else st1

/-- `indexBeforeAliasCount` returns true if the key named "index" is before any keys that
start with "alias-". The number of alias keys are returned as well. -/
def indexBeforeAliasCount (objects : List Object) : Bool × Nat :=
  let st := objects.foldl indexStep ⟨0, false, false⟩
  (st.indexBeforeAlias, st.aliasCount)

/-- `keyIndex`. -/
def keyIndex (alias' domain : String) : String :=
  alias' ++ "@" ++ domain

/-- The loop of `Open` that stores the records of the index: `s.aliases[key] = ra`. An
assignment to an entry of the nil map panics. -/
def Storer.loadIndex : IndexAliases → Op Storer Call Unit
  | [] => pure ()
  | a :: rest => fun s =>
    match s.aliases with
    | none => .panic "assignment to entry in nil map" s []
    | some l =>
      Storer.loadIndex rest
        { s with aliases := some (l.insert (keyIndex a.Alias a.Domain) a.ToAlias) }

/-- `Storer.Open` prepares the s3 provider for use. -/
def Storer.Open (readOnly : Bool) : Op Storer Call (Option Err) := do
  let s0 ← Op.get
  Op.set { s0 with readOnly := readOnly }
  match ← Storer.listKeys with
  | some err => pure (some err)
  | none =>
    let s1 ← Op.get
    Op.set { s1 with objects := sortReverse s1.objects }
    let s ← Op.get
    let (haveIndex, aliasCount) := indexBeforeAliasCount s.objects
    if aliasCount > 0 && haveIndex then do
      Op.call (Call.getObject "index")
      match s.svc.GetObject "index" with
      | .error err => pure (some err)
      | .ok (body, etag) =>
        match s.lib.decodeIndex body with
        | .error err => pure (some err)
        | .ok aliases =>
          if aliases.length = aliasCount then do
            Storer.loadIndex aliases
            let s2 ← Op.get
            Op.set { s2 with indexMD5 := trimQuotes etag }
            pure none
          else do
            Storer.getAliases s.objects
            pure none
    else do
      Storer.getAliases s.objects
      pure none

end S3

namespace S3

/-- The loop of `Close` that converts the sorted records: `storeralias.FromAlias(a)` on a
fresh `IndexAlias{}`, appended to `storeraliases`. -/
def toIndexAliases (aliases : Aliases) : IndexAliases :=
  aliases.map (fun a => IndexAlias.FromAlias IndexAlias.zero a)

/-- The bytes `b` that `Close` gets from `json.MarshalIndent`; on an error the error is
printed and `b` is nil. -/
def Storer.indexBody (s : Storer) : String :=
  match s.lib.marshalIndex (toIndexAliases (sortAliases s.aliases.ToSlice)) with
  | .ok b => b
  | .error _ => ""

/-- `Storer.Close` updates the index stored in S3 if the MD5 sum of the index JSON and key
MD5 sum are different. -/
def Storer.Close : Op Storer Call (Option Err) := do
  let s ← Op.get
  let b := s.indexBody
  let indexMD5 := s.lib.md5hex b
  if indexMD5 != s.indexMD5 then do
    let input : PutObjectInput :=
      { Key := "index"
        Body := b
        Metadata := [("creation_ts", s.lib.formatRFC3339 s.clock.Now.UTC)] }
    Op.call (Call.putObject input)
    match s.svc.PutObject input with
    | some err => pure (some err)
    | none => pure none
  else pure none

/-- `Storer.s3KeyName`. -/
def s3KeyName (a d : String) : String :=
  "alias-" ++ a ++ "@" ++ d

/-- `Storer.Get` HEADs a key in S3 and returns a pointer to an Alias. -/
def Storer.Get (a d : String) : Op Storer Call (Option Aliasman.Alias × Option Err) := do
  let r ← Storer.headS3Key (s3KeyName a d)
  match r.2 with
  | some err => pure (none, some err)
  | none => pure (r.1, none)

/-- The request `putAlias` builds. -/
def Storer.putAliasInput (s : Storer) (a : Aliasman.Alias) (updateModified : Bool) :
    PutObjectInput :=
  let modifiedTS := if updateModified then s.clock.Now else a.ModifiedTS
  { Key := s3KeyName a.Alias a.Domain
    Body := ""
    Metadata :=
      [("alias", a.Alias),
       ("domain", a.Domain),
       ("description", a.Description),
       ("email_addresses", joinComma a.EmailAddresses),
       ("suspended", if a.Suspended then "true" else "false"),
       ("modified_ts", s.lib.formatRFC3339 modifiedTS.UTC),
       ("created_ts",
        if a.CreatedTS.IsZero then s.lib.formatRFC3339 s.clock.Now.UTC
        else s.lib.formatRFC3339 a.CreatedTS),
       ("suspended_ts",
        if a.SuspendedTS.IsZero then s.lib.formatRFC3339 Time.zero
        else s.lib.formatRFC3339 a.SuspendedTS)] }

/-- `Storer.putAlias`. -/
def Storer.putAlias (a : Aliasman.Alias) (updateModified : Bool) :
    Op Storer Call (Option Err) := do
  let s ← Op.get
  let input := s.putAliasInput a updateModified
  Op.call (Call.putObject input)
  match s.svc.PutObject input with
  | some err => pure (some err)
  | none => pure none

/-- `Storer.Put` PUTs an Alias' content into an S3 key. -/
def Storer.Put (a : Aliasman.Alias) (updateModified : Bool) : Op Storer Call (Option Err) := do
  let s ← Op.get
  if s.readOnly then pure (some (Err.new "S3 opened readonly"))
  else do
    Storer.addAlias a
    match ← Storer.putAlias a updateModified with
    | some err => pure (some err)
    | none => pure none

/-- `Storer.Update` PUTs an Alias' content into an S3 key. -/
def Storer.Update (a : Aliasman.Alias) (updateModified : Bool) :
    Op Storer Call (Option Err) := do
  let s ← Op.get
  if s.readOnly then pure (some (Err.new "S3 opened readonly"))
  else do
    match ← Storer.putAlias a updateModified with
    | some err => pure (some err)
    | none =>
      Storer.delAlias a
      Storer.addAlias a
      pure none

/-- `Storer.Search` applies the filter to the internal map of aliases and returns a sorted
list of aliases that match the filter criteria. -/
def Storer.Search (f : Filter) (matchAnyRegexp : Bool) :
    Op Storer Call (Aliases × Option Err) := do
  let s ← Op.get
  let aliases := s.aliases.range.foldl (fun (aliases : Aliases) e =>
    if e.2.Filter f matchAnyRegexp then aliases ++ [e.2] else aliases) []
  pure (sortAliases aliases, none)

/-- The common body of `Storer.Suspend` and `Storer.Unsuspend`, which differ in the two
assignments to the record found. -/
def Storer.setSuspended (alias' domain : String) (suspended : Bool) (suspendedTS : Time) :
    Op Storer Call (Option Err) := do
  let s ← Op.get
  if s.readOnly then pure (some (Err.new "S3 opened readonly"))
  else do
    let key := keyIndex alias' domain
    match s.aliases.get key with
    | some a0 =>
      let a := { a0 with Suspended := suspended, SuspendedTS := suspendedTS }
      match ← Storer.putAlias a true with
      | some err => pure (some err)
      | none =>
        Storer.delAlias a
        Storer.addAlias a
        pure none
    | none => pure (some (Err.new ("alias " ++ key ++ " does not exist")))

/-- `Storer.Suspend` updates the S3 key representing the alias with the suspended flag and
updates the suspended timestamp. -/
def Storer.Suspend (alias' domain : String) : Op Storer Call (Option Err) := fun s =>
  Storer.setSuspended alias' domain true s.clock.Now.UTC s

/-- `Storer.Unsuspend` updates the S3 key representing the alias with the suspended flag
and updates the suspended timestamp. -/
def Storer.Unsuspend (alias' domain : String) : Op Storer Call (Option Err) :=
  Storer.setSuspended alias' domain false Time.zero

/-- `Storer.Delete` removes the S3 key representing the alias. -/
def Storer.Delete (alias' domain : String) : Op Storer Call (Option Err) := do
  let s ← Op.get
  if s.readOnly then pure (some (Err.new "S3 opened readonly"))
  else do
    let keyName := s3KeyName alias' domain
    Op.call (Call.deleteObject keyName)
    match s.svc.DeleteObject keyName with
    | some err => pure (some err)
    | none => pure none

end S3

namespace Files

/-- FileAlias represents the state necessary for a file alias. -/
structure FileAlias where
  Alias : String
  Domain : String
  EmailAddresses : List String
  Description : String
  Suspended : Bool
  CreatedTS : Time
  ModifiedTS : Time
  SuspendedTS : Time
deriving DecidableEq, Repr

/-- Requests to the file system. -/
inductive Call where
  | readFile (name : String)
  | writeFile (name : String) (data : String)
  | remove (name : String)
deriving DecidableEq, Repr

/-- The answers of the operating system (`ioutil.ReadFile`, `ioutil.WriteFile`,
`os.Remove`) and of the JSON library on a `FileAlias` (`json.Unmarshal`,
`json.MarshalIndent`). -/
structure OS where
  ReadFile : String → Except Err String
  WriteFile : String → String → Option Err
  Remove : String → Option Err
  Unmarshal : String → Except Err FileAlias
  MarshalIndent : FileAlias → Except Err String

/-- Storer implements the storage provider methods and state for the files provider. The
methods have value receivers; the map they share with the caller is part of the state. -/
structure Storer where
  filesPath : String
  readOnly : Bool
  aliases : AliasesMap
  clock : Clock
  os : OS

/-- `FileAlias.toAlias`. -/
def FileAlias.toAlias (sa : FileAlias) : Aliasman.Alias :=
  { Alias := sa.Alias
    Domain := sa.Domain
    EmailAddresses := sa.EmailAddresses
    Description := sa.Description
    Suspended := sa.Suspended
    CreatedTS := sa.CreatedTS
    ModifiedTS := sa.ModifiedTS
    SuspendedTS := sa.SuspendedTS }

/-- `toFileAlias`. -/
def toFileAlias (a : Aliasman.Alias) : FileAlias :=
  { Alias := a.Alias
    Domain := a.Domain
    EmailAddresses := a.EmailAddresses
    Description := a.Description
    Suspended := a.Suspended
    CreatedTS := a.CreatedTS
    ModifiedTS := a.ModifiedTS
    SuspendedTS := a.SuspendedTS }

/-- `aliasFilename`. -/
def aliasFilename (a d : String) : String :=
  "alias-" ++ a ++ "-" ++ d

/-- Go `filepath.Join` of a directory and a file name. -/
def pathJoin (dir name : String) : String :=
  dir ++ "/" ++ name

/-- The error `fmt.Errorf("%v", err)` and its like: a new error with the given text. -/
def wrapErr (pre : String) (err : Err) : Err :=
  Err.new (pre ++ err.msg)

/-- `Storer.Get` retrieves a single Alias from the file on disk. -/
def Storer.Get (alias' domain : String) : Op Storer Call (Option Aliasman.Alias × Option Err) := do
  let s ← Op.get
  let name := pathJoin s.filesPath (aliasFilename alias' domain)
  Op.call (Call.readFile name)
  match s.os.ReadFile name with
  | .error err => pure (none, some (wrapErr "" err))
  | .ok b =>
    match s.os.Unmarshal b with
    | .error err => pure (none, some err)
    | .ok a => pure (some a.toAlias, none)

/-- `writeAliasFile`. -/
def writeAliasFile (fa : FileAlias) : Op Storer Call (Option Err) := do
  let s ← Op.get
  match s.os.MarshalIndent fa with
  | .error err => pure (some (wrapErr "error marshalling JSON: " err))
  | .ok buf =>
    let fn := pathJoin s.filesPath (aliasFilename fa.Alias fa.Domain)
    Op.call (Call.writeFile fn buf)
    match s.os.WriteFile fn buf with
    | some err => pure (some (wrapErr ("error writing file " ++ fn ++ ": ") err))
    | none => pure none

/-- The call `s.aliases.Add(a)` on the Storer's map. -/
def Storer.addAlias (a : Aliasman.Alias) : Op Storer Call Unit := fun s =>
  match s.aliases.Add a with
  | (m, none) => .done () { s with aliases := m } []
  | (m, some msg) => .panic msg { s with aliases := m } []

/-- The call `s.aliases.Del(a)` on the Storer's map. -/
def Storer.delAlias (a : Aliasman.Alias) : Op Storer Call Unit := fun s =>
  .done () { s with aliases := s.aliases.Del a } []

/-- `Storer.Put` stores the Alias in a file. -/
def Storer.Put (a : Aliasman.Alias) (updateModified : Bool) : Op Storer Call (Option Err) := do
  let s ← Op.get
  if s.readOnly then pure (some (Err.new "files provider opened readonly"))
  else do
    let a := if updateModified then { a with ModifiedTS := s.clock.Now } else a
    let fa := toFileAlias a
    match ← writeAliasFile fa with
    | some err => pure (some (wrapErr "unable to write alias file: " err))
    | none =>
      Storer.addAlias a
      pure none

/-- `Storer.Update` stores the updated Alias. -/
def Storer.Update (a : Aliasman.Alias) (updateModified : Bool) :
    Op Storer Call (Option Err) := do
  let s ← Op.get
  if s.readOnly then pure (some (Err.new "S3 opened readonly"))
  else do
    match ← Storer.Put a updateModified with
    | some err => pure (some err)
    | none =>
      Storer.delAlias a
      Storer.addAlias a
      pure none

/-- `Storer.suspension`. -/
def Storer.suspension (alias' domain : String) (suspending : Bool) :
    Op Storer Call (Option Err) := do
  let s ← Op.get
  if s.readOnly then pure (some (Err.new "files provider opened readonly"))
  else do
    let r ← Storer.Get alias' domain
    match r.2 with
    | some err => pure (some err)
    | none =>
      match r.1 with
      | some a0 =>
        let a :=
          if suspending then { a0 with Suspended := true, SuspendedTS := s.clock.Now.UTC }
          else { a0 with Suspended := false, SuspendedTS := Time.zero }
        match ← Storer.Put a true with
        | some err => pure (some err)
        | none =>
          Storer.delAlias a
          Storer.addAlias a
          pure none
      | none => Op.panic "invalid memory address or nil pointer dereference"

/-- `Storer.Suspend`. -/
def Storer.Suspend (alias' domain : String) : Op Storer Call (Option Err) :=
  Storer.suspension alias' domain true

/-- `Storer.Unsuspend`. -/
def Storer.Unsuspend (alias' domain : String) : Op Storer Call (Option Err) :=
  Storer.suspension alias' domain false

/-- `Storer.Delete` removes the file representing the alias. -/
def Storer.Delete (a d : String) : Op Storer Call (Option Err) := do
  let s ← Op.get
  if s.readOnly then pure (some (Err.new "files provider opened readonly"))
  else do
    let fn := pathJoin s.filesPath (aliasFilename a d)
    Op.call (Call.remove fn)
    match s.os.Remove fn with
    | some err => pure (some (wrapErr ("error removing file " ++ fn ++ ": ") err))
    | none =>
      Storer.delAlias { Alias.zero with Alias := a, Domain := d }
      pure none

end Files

namespace SQLite

/-- Go `sql.NullTime`. -/
structure NullTime where
  Time : Aliasman.Time
  Valid : Bool
deriving DecidableEq, Repr

/-- Alias represent an alias as stored in the SQLite database. -/
structure Alias where
  alias' : String
  domain : String
  emailAddresses : String
  description : String
  suspended : Bool
  createdTS : NullTime
  modifiedTS : NullTime
  suspendedTS : NullTime
deriving DecidableEq, Repr

/-- The zero value of the database row type. -/
def Alias.zero : SQLite.Alias :=
  ⟨"", "", "", "", false, ⟨Time.zero, false⟩, ⟨Time.zero, false⟩, ⟨Time.zero, false⟩⟩

/-- An argument bound to a statement. -/
inductive Arg where
  | str (s : String)
  | bool (b : Bool)
  | time (t : Aliasman.Time)
deriving DecidableEq, Repr

/-- Requests to the database. -/
inductive Call where
  | prepare (sql : String)
  | exec (sql : String) (args : List Arg)
  | queryRow (sql : String) (args : List Arg)
deriving DecidableEq, Repr

/-- The answers of the database: the error of `Prepare` and of `Exec`, and for `QueryRow`
followed by `Scan` the row or the error (`sql.ErrNoRows` when the query selects no row). -/
structure DB where
  Prepare : String → Option Err
  Exec : String → List Arg → Option Err
  QueryRow : String → List Arg → Except Err SQLite.Alias

/-- Storer implements the storage provider methods and state for the sqlite3 provider;
`now` is the reading of `time.Now()`. -/
structure Storer where
  db : DB
  readOnly : Bool
  now : Aliasman.Time

/-- The statement `getSingleAliasSQL` (`sql.go`). -/
def getSingleAliasSQL : String :=
  "SELECT alias, domain, addresses, description, suspended, created_ts, modified_ts, suspended_ts FROM alias WHERE alias = ? AND domain = ?"

/-- The statement `putAliasSQL` (`sql.go`). -/
def putAliasSQL : String :=
  "INSERT OR REPLACE INTO alias (alias, addresses, domain, description, suspended, created_ts, modified_ts, suspended_ts) VALUES (?, ?, ?, ?, ?, ?, ?, ?)"

/-- The statement `suspendAliasSQL` (`sql.go`). -/
def suspendAliasSQL : String :=
  "UPDATE alias SET suspended = true, modified_ts = CURRENT_TIMESTAMP, suspended_ts = CURRENT_TIMESTAMP WHERE alias = ? AND domain = ?"

/-- The statement `unsuspendAliasSQL` (`sql.go`). -/
def unsuspendAliasSQL : String :=
  "UPDATE alias SET suspended = false, modified_ts = CURRENT_TIMESTAMP, suspended_ts = NULL WHERE alias = ? AND domain = ?"

/-- The statement `deleteAliasSQL` (`sql.go`). -/
def deleteAliasSQL : String :=
  "DELETE FROM alias WHERE alias = ? AND domain = ?"

/-- `Alias.toAlias`, from the database row to the record. -/
def Alias.toAlias (sa : SQLite.Alias) : Aliasman.Alias :=
  { Alias := sa.alias'
    Domain := sa.domain
    EmailAddresses := splitComma sa.emailAddresses
    Description := sa.description
    Suspended := sa.suspended
    CreatedTS := if sa.createdTS.Valid then sa.createdTS.Time else Time.zero
    ModifiedTS := if sa.modifiedTS.Valid then sa.modifiedTS.Time else Time.zero
    SuspendedTS := if sa.suspendedTS.Valid then sa.suspendedTS.Time else Time.zero }

/-- `scanAlias` on the row of `QueryRow(sql, args)`: `row.Scan` fills the row type, left at
its zero value when it fails. -/
def scanAlias (sql : String) (args : List Arg) :
    Op Storer Call (Aliasman.Alias × Option Err) := do
  let s ← Op.get
  Op.call (Call.queryRow sql args)
  match s.db.QueryRow sql args with
  | .ok sa => pure (sa.toAlias, none)
  | .error err => pure (Alias.zero.toAlias, some err)

/-- `Storer.Get` retrieves a single Alias from the database. -/
def Storer.Get (alias' domain : String) :
    Op Storer Call (Option Aliasman.Alias × Option Err) := do
  let r ← scanAlias getSingleAliasSQL [Arg.str alias', Arg.str domain]
  match r.2 with
  | some err => pure (none, some err)
  | none => pure (some r.1, none)

/-- `Storer.Put` stores the Alias in the database. -/
def Storer.Put (a : Aliasman.Alias) (updateModified : Bool) : Op Storer Call (Option Err) := do
  let s ← Op.get
  if s.readOnly then pure (some (Err.new "SQLite DB opened readonly"))
  else do
    let dest := joinComma a.EmailAddresses
    Op.call (Call.prepare putAliasSQL)
    match s.db.Prepare putAliasSQL with
    | some err => pure (some err)
    | none =>
      let createdTS := if a.CreatedTS.IsZero then s.now else a.CreatedTS
      let modifiedTS := if updateModified then s.now else a.ModifiedTS
      let args := [Arg.str a.Alias, Arg.str dest, Arg.str a.Domain, Arg.str a.Description,
        Arg.bool a.Suspended, Arg.time createdTS, Arg.time modifiedTS, Arg.time a.SuspendedTS]
      Op.call (Call.exec putAliasSQL args)
      match s.db.Exec putAliasSQL args with
      | some err => pure (some err)
      | none => pure none

/-- `Storer.Update`: "We can just call Put since the SQL is an INSERT OR UPDATE". -/
def Storer.Update (a : Aliasman.Alias) (updateModified : Bool) : Op Storer Call (Option Err) :=
  Storer.Put a updateModified

/-- The common body of `Storer.Suspend`, `Storer.Unsuspend` and `Storer.Delete`, which
differ in their statement. -/
def Storer.execOnAlias (sql alias' domain : String) : Op Storer Call (Option Err) := do
  let s ← Op.get
  if s.readOnly then pure (some (Err.new "SQLite DB opened readonly"))
  else do
    Op.call (Call.prepare sql)
    match s.db.Prepare sql with
    | some err => pure (some err)
    | none =>
      let args := [Arg.str alias', Arg.str domain]
      Op.call (Call.exec sql args)
      match s.db.Exec sql args with
      | some err => pure (some err)
      | none => pure none

/-- `Storer.Suspend`. -/
def Storer.Suspend (alias' domain : String) : Op Storer Call (Option Err) :=
  Storer.execOnAlias suspendAliasSQL alias' domain

/-- `Storer.Unsuspend`. -/
def Storer.Unsuspend (alias' domain : String) : Op Storer Call (Option Err) :=
  Storer.execOnAlias unsuspendAliasSQL alias' domain

/-- `Storer.Delete`. -/
def Storer.Delete (alias' domain : String) : Op Storer Call (Option Err) :=
  Storer.execOnAlias deleteAliasSQL alias' domain

end SQLite

namespace Files

/-- `Storer.Search` applies the filter to the map of aliases and returns a sorted list of
aliases that match the filter criteria. -/
def Storer.Search (f : Filter) (matchAnyRegexp : Bool) :
    Op Storer Call (Aliases × Option Err) := do
  let s ← Op.get
  let aliases := s.aliases.range.foldl (fun (aliases : Aliases) e =>
    if e.2.Filter f matchAnyRegexp then aliases ++ [e.2] else aliases) []
  pure (sortAliases aliases, none)

end Files

namespace S3

/-- `Storer.assembleAliases`, the collector of the full scan, on the pointers that arrive
on `aliasChan` in the given order: `s.aliases.Add(*a)` for each. -/
def Storer.assembleAliases : List (Option Aliasman.Alias) → Op Storer Call Unit
  | [] => pure ()
  | none :: _ => Op.panic "invalid memory address or nil pointer dereference"
  | some a :: rest => do
    Storer.addAlias a
    Storer.assembleAliases rest

end S3

/-! ## The sync command (`cmd/sync.go`) -/

namespace Cmd

/-- What the loop of `syncCmdRun` decides for an entry of the source map: `doCopy` (an
add), or `doUpdate` together with the unified diff. -/
inductive Action where
  | add (v : Alias)
  | update (v : Alias) (uDiff : String)
deriving DecidableEq, Repr

/-- The record an action would put. -/
def Action.record : Action → Alias
  | .add v => v
  | .update v _ => v

/-- What `syncCmdRun` works with: `Alias.UnifiedDiff` (built on go-spew and difflib), the
answer of the operator to a question (`toolbox.CheckYes`), and the `Put` method and the
`Type()` of the destination provider. -/
structure Sync (σ κ : Type) where
  UnifiedDiff : Alias → Alias → String
  CheckYes : String → Bool
  Put : Alias → Bool → Op σ κ (Option Err)
  TypeName : String

/-- The loop of `syncCmdRun` over the entries of the source map still to be visited, on
the state of the destination provider. It returns the actions decided, in order, and the
error on which `ErrorExit` ended the program, if any. -/
def syncLoop {σ κ : Type} (env : Sync σ κ) (yes : Bool) (destMap : AliasesMap) :
    List (String × Alias) → Op σ κ (List Action × Option Err)
  | [] => pure ([], none)
  | (k, v) :: rest =>
    let found : Bool × Bool × String :=
      match destMap.get k with
      | some destAlias =>
        if !v.Equal destAlias then (false, true, env.UnifiedDiff v destAlias)
        else (false, false, "")
      | none => (true, false, "")
    let doCopy := found.1
    let doUpdate := found.2.1
    let uDiff := found.2.2
    if doCopy || doUpdate then
      let act := if doCopy then Action.add v else Action.update v uDiff
      let ok :=
        if !yes then
          if doCopy then
            env.CheckYes ("Add alias for " ++ v.Alias ++ "@" ++ v.Domain ++ " to " ++
              env.TypeName ++ "?")
          else
            env.CheckYes ("Update alias for " ++ v.Alias ++ "@" ++ v.Domain ++ " to " ++
              env.TypeName ++ ": " ++ uDiff ++ "?")
        else false
      if ok || yes then do
        match ← env.Put v false with
        | some err => pure ([act], some err)
        | none =>
          let r ← syncLoop env yes destMap rest
          pure (act :: r.1, r.2)
      else do
        let r ← syncLoop env yes destMap rest
        pure (act :: r.1, r.2)
    else syncLoop env yes destMap rest

end Cmd

/-! ## Notions used in the statements -/

/-- The two times denote the same instant, to the nanosecond. -/
def Time.SameInstant (t u : Time) : Prop := t.sec = u.sec ∧ t.nsec = u.nsec

/-- Ascending (Domain, Alias) order: `a` stands strictly before `b` when its Domain is
smaller, or the Domains are equal and its Alias is smaller. -/
def Before (a b : Alias) : Prop :=
  a.Domain < b.Domain ∨ (a.Domain = b.Domain ∧ a.Alias < b.Alias)

/-- The record that takes from `a` the fields named in `names` and from `s` the others. -/
def pick (a s : Alias) (names : List String) : Alias :=
  { Alias := if "Alias" ∈ names then a.Alias else s.Alias
    Domain := if "Domain" ∈ names then a.Domain else s.Domain
    EmailAddresses := if "EmailAddresses" ∈ names then a.EmailAddresses else s.EmailAddresses
    Description := if "Description" ∈ names then a.Description else s.Description
    Suspended := if "Suspended" ∈ names then a.Suspended else s.Suspended
    CreatedTS := if "CreatedTS" ∈ names then a.CreatedTS else s.CreatedTS
    ModifiedTS := if "ModifiedTS" ∈ names then a.ModifiedTS else s.ModifiedTS
    SuspendedTS := if "SuspendedTS" ∈ names then a.SuspendedTS else s.SuspendedTS }

/-- The test `Aliases.Diff` applies to the entry `(k, a)` of the first map. -/
def keeps (m2 : AliasesMap) (e : String × Alias) : Bool :=
  match m2.get e.1 with
  | none => true
  | some b => !(e.2.Equal b)

/-! ## Values of the repository's tests (`aliases_test.go`, `alias_test.go`) -/

/-- Collection `s1` of `TestAliasesDiff`, case 3. -/
def testDiffS1 : Aliases :=
  [⟨"bar", "bar.com", [], "Alias 1", false, Time.zero, Time.zero, Time.zero⟩,
   ⟨"baz", "baz.com", [], "Alias 2", false, Time.zero, Time.zero, Time.zero⟩,
   ⟨"foo", "foo.com", [], "Alias 3", false, Time.zero, Time.zero, Time.zero⟩]

/-- Collection `s2` of `TestAliasesDiff`, case 3. -/
def testDiffS2 : Aliases :=
  [⟨"baz", "baz.com", [], "Alias 2", false, Time.zero, Time.zero, Time.zero⟩,
   ⟨"foo", "foo.com", [], "Different", false, Time.zero, Time.zero, Time.zero⟩]

/-- Collection `in` of `TestAliasesSort`, case 3. -/
def testSortIn : Aliases :=
  [⟨"userB", "foo.com", [], "", false, Time.zero, Time.zero, Time.zero⟩,
   ⟨"userA", "bar.com", [], "", false, Time.zero, Time.zero, Time.zero⟩,
   ⟨"userA", "foo.com", [], "", false, Time.zero, Time.zero, Time.zero⟩]

/-- The record added in `TestAliasesMapAdd`, cases 2 and 3. -/
def testAddAlias : Alias :=
  ⟨"foo", "bar.com", [], "", false, Time.zero, Time.zero, Time.zero⟩

/-- The record stripped in `TestAliasStripData` (`alias_test.go`), with fixed times in
place of `time.Now()`. -/
def testStripIn : Alias :=
  ⟨"foo", "bar.com", ["bar@baz.com"], "A fake alias", true,
    ⟨63700000000, 5, 0⟩, ⟨63700000001, 6, 0⟩, ⟨63700000002, 7, 0⟩⟩

/-- The pattern `^search term$` of `TestAliasFilter`, as its matching function. -/
def testSearchTerm : Regexp := ⟨fun s => s == "search term"⟩

/-- The record held by the map of `TestAliasesMapDel`, case 2. -/
def testDelHeld : Alias :=
  ⟨"foo", "baz.com", [], "", false, Time.zero, Time.zero, Time.zero⟩

namespace S3

/-- The keys of a listing that carry the prefix `alias-`, in listing order. -/
def aliasKeys (objects : List Object) : List String :=
  (objects.filter (fun o => HasPrefix o.Key "alias-")).map (fun o => o.Key)

/-- A key named `index` precedes every `alias-` key of the listing: the listing splits
into a part without `alias-` keys that holds an object named `index`, and the rest. -/
def IndexPrecedesAliases (objects : List Object) : Prop :=
  ∃ front rest, objects = front ++ rest ∧ (∃ o ∈ front, o.Key = "index") ∧
    ∀ o ∈ front, HasPrefix o.Key "alias-" = false

/-- The Storer after `Open` has listed the bucket and sorted the listing. -/
def Storer.listed (readOnly : Bool) (s : Storer) : Storer :=
  { s with
    readOnly := readOnly
    objects := sortReverse (s.objects ++ s.svc.ListObjectsV2Pages.1) }

/-- The index can be trusted: the sorted listing has an `alias-` key, `index` precedes all
of them, and the index object decodes to as many records as there are `alias-` keys. -/
def Storer.IndexTrusted (readOnly : Bool) (s : Storer) : Prop :=
  aliasKeys (s.listed readOnly).objects ≠ [] ∧
  IndexPrecedesAliases (s.listed readOnly).objects ∧
  ∃ body etag recs, s.svc.GetObject "index" = .ok (body, etag) ∧
    s.lib.decodeIndex body = .ok recs ∧
    recs.length = (aliasKeys (s.listed readOnly).objects).length

end S3

namespace S3

/-- The full scan as `Open` runs it: `s.getAliases()` and then `return nil`. -/
def Storer.scanAll (objects : List Object) : Op Storer Call (Option Err) :=
  Op.bind (Storer.getAliases objects) (fun _ => Op.pure none)

end S3

/-! ## Values of the provider tests (`s3/storer_test.go`, `s3/index_alias_test.go`) -/

/-- 2001-09-11 12:46:40 UTC, in seconds since the zero time: the time of the mock clock
in `TestParseTS`. -/
def testT1 : Time := ⟨63135809200, 0, 0⟩

/-- 2001-09-11 13:03:00 UTC. -/
def testT2 : Time := ⟨63135810180, 0, 0⟩

/-- `MockClock{NowTime: t1}`. -/
def testClock : Clock := ⟨testT1⟩

/-- The index record of `TestToAlias`. -/
def testIndexRecord : S3.IndexAlias :=
  ⟨"foo", "bar.com", ["baz@baz.com"], "An alias from an S3 index file", true,
    testT1, testT1, testT2⟩

/-- Stand-ins for the library functions: the two timestamps of the tests are parsed and
formatted, the body `[foo@bar.com]` decodes to the index record of the tests and any other
body is rejected, a list of records is written as their keys, and the digest of a text is
the text itself. -/
def testLib : S3.Lib :=
  { parseRFC3339 := fun s =>
      if s = "2001-09-11T12:46:40Z" then some testT1
      else if s = "2001-09-11T13:03:00Z" then some testT2
      else none
    formatRFC3339 := fun t =>
      if t = testT1 then "2001-09-11T12:46:40Z"
      else if t = testT2 then "2001-09-11T13:03:00Z"
      else "0001-01-01T00:00:00Z"
    decodeIndex := fun body =>
      if body = "[foo@bar.com]" then .ok [testIndexRecord]
      else .error (Err.new "invalid character")
    marshalIndex := fun l => .ok (joinComma (l.map (fun ia => ia.Alias ++ "@" ++ ia.Domain)))
    md5hex := fun b => b }

/-- The metadata of the object `alias-foo@bar.com`. -/
def testMetadata : Metadata :=
  [("Alias", "foo"), ("Domain", "bar.com"), ("Email_addresses", "baz@baz.com"),
   ("Description", "An alias from an S3 index file"), ("Suspended", "true"),
   ("Created_ts", "2001-09-11T12:46:40Z"), ("Modified_ts", "2001-09-11T12:46:40Z"),
   ("Suspended_ts", "2001-09-11T13:03:00Z")]

/-- A bucket with the object `alias-foo@bar.com`, last modified at `aliasTime`, and the
object `index`, last modified at 13:03:00, with the given body; `head` is what a HEAD of
the alias object answers. Any other key is not found. -/
def testBucket (aliasTime : Time) (indexBody : String) (head : Except Err Metadata) : S3.API :=
  { ListObjectsV2Pages := ([⟨"alias-foo@bar.com", aliasTime⟩, ⟨"index", testT2⟩], none)
    GetObject := fun k =>
      if k = "index" then .ok (indexBody, "\"0123\"")
      else .error ⟨some "NoSuchKey", "The specified key does not exist."⟩
    HeadObject := fun k =>
      if k = "alias-foo@bar.com" then head else .error ⟨some "NotFound", "Not Found"⟩
    PutObject := fun _ => none
    DeleteObject := fun _ => none }

/-- The Storer that `New` returns (empty map, no objects), on the given service. -/
def testStorer (readOnly : Bool) (svc : S3.API) : S3.Storer :=
  { readOnly := readOnly
    clock := testClock
    aliases := some ∅
    objects := []
    svc := svc
    lib := testLib
    indexMD5 := "" }

/-- A file system on which no file can be read: every `ReadFile` fails as on a missing
file. -/
def testEmptyDisk : Files.OS :=
  { ReadFile := fun name => .error (Err.new ("open " ++ name ++ ": no such file or directory"))
    WriteFile := fun _ _ => none
    Remove := fun _ => none
    Unmarshal := fun _ => .error (Err.new "unexpected end of JSON input")
    MarshalIndent := fun fa => .ok (fa.Alias ++ "@" ++ fa.Domain) }

/-- A files Storer on the empty disk. -/
def testFilesStorer (readOnly : Bool) : Files.Storer :=
  { filesPath := "/tmp/aliases"
    readOnly := readOnly
    aliases := some ∅
    clock := testClock
    os := testEmptyDisk }

/-- A database whose table holds no row: `QueryRow` followed by `Scan` gives
`sql.ErrNoRows`. -/
def testEmptyDB : SQLite.DB :=
  { Prepare := fun _ => none
    Exec := fun _ _ => none
    QueryRow := fun _ _ => .error (Err.new "sql: no rows in result set") }

/-- A SQLite Storer on the empty database. -/
def testSQLiteStorer (readOnly : Bool) : SQLite.Storer :=
  { db := testEmptyDB
    readOnly := readOnly
    now := testT1 }

/-- The S3 Storer of the tests, not read-only, whose alias map holds `foo@bar.com`. -/
def testStorerHolding : S3.Storer :=
  { testStorer false (testBucket testT1 "garbage" (.ok testMetadata)) with
    aliases := Aliases.ToMap [testAddAlias] }

/-- The files Storer of the tests, not read-only, whose alias map holds `foo@bar.com`. -/
def testFilesStorerHolding : Files.Storer :=
  { testFilesStorer false with aliases := Aliases.ToMap [testAddAlias] }

/-- The record `foo@bar.com` with another description, as a sync source would hold it. -/
def testAddAliasChanged : Alias :=
  { testAddAlias with Description := "changed" }

/-- The sync command with the S3 Storer as destination; the operator answers yes. -/
def testSyncToS3 : Cmd.Sync S3.Storer S3.Call :=
  { UnifiedDiff := fun _ _ => "diff"
    CheckYes := fun _ => true
    Put := S3.Storer.Put
    TypeName := "s3" }

namespace Cmd

/-- The action `syncCmdRun` decides for the entry `(k, v)` of the source map, `none` when
it decides none: an add when the destination map has no entry under `k`, an update with
the unified diff when it has one that is not Equal to `v`. -/
def planFor {σ κ : Type} (env : Sync σ κ) (destMap : AliasesMap) (e : String × Alias) :
    Option Action :=
  match destMap.get e.1 with
  | none => some (Action.add e.2)
  | some destAlias =>
    if e.2.Equal destAlias then none
    else some (Action.update e.2 (env.UnifiedDiff e.2 destAlias))

/-- The action is carried out: the flag `--yes` is set, or the operator answers yes to the
question asked for it. -/
def confirms {σ κ : Type} (env : Sync σ κ) (yes : Bool) : Action → Bool
  | .add v =>
    yes || env.CheckYes ("Add alias for " ++ v.Alias ++ "@" ++ v.Domain ++ " to " ++
      env.TypeName ++ "?")
  | .update v uDiff =>
    yes || env.CheckYes ("Update alias for " ++ v.Alias ++ "@" ++ v.Domain ++ " to " ++
      env.TypeName ++ ": " ++ uDiff ++ "?")

/-- Carrying out a list of actions: `Put(v, false)` on the destination for every action
that is confirmed, nothing for one that is declined; an error of `Put` ends the run. -/
def applyPlan {σ κ : Type} (env : Sync σ κ) (yes : Bool) :
    List Action → Op σ κ (List Action × Option Err)
  | [] => Op.pure ([], none)
  | act :: rest =>
    if confirms env yes act then
      Op.bind (env.Put act.record false) fun r =>
        match r with
        | some err => Op.pure ([act], some err)
        | none => Op.bind (applyPlan env yes rest) fun r => Op.pure (act :: r.1, r.2)
    else Op.bind (applyPlan env yes rest) fun r => Op.pure (act :: r.1, r.2)

end Cmd

/-- The sync command with the S3 Storer as destination; the operator answers no. -/
def testSyncDeclining : Cmd.Sync S3.Storer S3.Call :=
  { testSyncToS3 with CheckYes := fun _ => false }

/-- The source collection `a@x.com`, `b@x.com` of the sync scenario. -/
def testSyncSource : Aliases :=
  [⟨"a", "x.com", [], "", false, Time.zero, Time.zero, Time.zero⟩,
   ⟨"b", "x.com", [], "", false, Time.zero, Time.zero, Time.zero⟩]

/-- The destination collection of the sync scenario: `a@x.com` with another description. -/
def testSyncDest : Aliases :=
  [⟨"a", "x.com", [], "different", false, Time.zero, Time.zero, Time.zero⟩]

namespace S3

/-- The order of the listing after `Open` has sorted it: `a` may stand before `b` when it
was modified later, or at the same instant and its key is not smaller. -/
def NewerFirst (a b : Object) : Prop :=
  b.LastModified.Before a.LastModified = true ∨
    (a.LastModified.SameInstant b.LastModified ∧ b.Key ≤ a.Key)

end S3

/-- The instant of a time and the key, compared lexicographically: the order of
`objects.Less`. -/
def objectRank (o : S3.Object) : Lex (Lex (ℤ × ℕ) × String) :=
  toLex (toLex (o.LastModified.sec, o.LastModified.nsec.val), o.Key)

/-! ## Auxiliary facts -/

theorem stringSliceEqual_iff (xs ys : List String) :
    StringSliceEqual xs ys = true ↔ xs = ys := by
  induction xs generalizing ys with
  | nil => cases ys <;> simp [StringSliceEqual]
  | cons x xs ih => cases ys <;> simp [StringSliceEqual, ih]

theorem time_equal_iff (t u : Time) : t.Equal u = true ↔ t.SameInstant u := by
  simp [Time.Equal, Time.SameInstant]

theorem alias_equal_iff (a b : Alias) :
    a.Equal b = true ↔
      a.Alias = b.Alias ∧ a.Domain = b.Domain ∧ a.Description = b.Description ∧
      a.Suspended = b.Suspended ∧
      a.CreatedTS.SameInstant b.CreatedTS ∧ a.ModifiedTS.SameInstant b.ModifiedTS ∧
      a.SuspendedTS.SameInstant b.SuspendedTS ∧
      a.EmailAddresses = b.EmailAddresses := by
  unfold Alias.Equal
  simp only [← time_equal_iff, ← stringSliceEqual_iff]
  by_cases h1 : a.Alias = b.Alias <;> by_cases h2 : a.Domain = b.Domain <;>
    by_cases h3 : a.Description = b.Description <;>
    by_cases h4 : a.Suspended = b.Suspended <;>
    cases h5 : a.CreatedTS.Equal b.CreatedTS <;> cases h6 : a.ModifiedTS.Equal b.ModifiedTS <;>
    cases h7 : a.SuspendedTS.Equal b.SuspendedTS <;>
    cases h8 : StringSliceEqual a.EmailAddresses b.EmailAddresses <;>
    simp [h1, h2, h3, h4]

theorem alias_equal_refl (a : Alias) : a.Equal a = true := by
  simp [alias_equal_iff, Time.SameInstant]

theorem foldl_or_eq_any (p : String → Bool) (l : List String) (acc : Bool) :
    l.foldl (fun matchAny e => matchAny || p e) acc = (acc || l.any p) := by
  induction l generalizing acc with
  | nil => simp
  | cons x xs ih => simp [ih, Bool.or_assoc]

theorem setField_of_mem (a s : Alias) (name : String) (h : name ∈ Alias.Fields) :
    setField a s name = some (pick a s [name]) := by
  simp only [Alias.Fields, List.mem_cons, List.mem_singleton, List.not_mem_nil, or_false] at h
  rcases h with h | h | h | h | h | h | h | h <;> subst h <;> rfl

theorem setField_of_not_mem (a s : Alias) (name : String) (h : name ∉ Alias.Fields) :
    setField a s name = none := by
  simp only [Alias.Fields, List.mem_cons, List.mem_singleton, List.not_mem_nil, or_false,
    not_or] at h
  obtain ⟨h1, h2, h3, h4, h5, h6, h7, h8⟩ := h
  simp [setField, h1, h2, h3, h4, h5, h6, h7, h8]

theorem pick_pick (a s : Alias) (name : String) (rest : List String) :
    pick a (pick a s [name]) rest = pick a s (name :: rest) := by
  simp only [pick, List.mem_cons, List.mem_singleton, List.not_mem_nil, or_false]
  congr 1 <;> split_ifs <;> simp_all

theorem stripLoop_of_fields (a : Alias) (names : List String) (s : Alias)
    (h : ∀ n ∈ names, n ∈ Alias.Fields) : stripLoop a s names = (pick a s names, none) := by
  induction names generalizing s with
  | nil => simp [stripLoop, pick]
  | cons name rest ih =>
    rw [stripLoop, setField_of_mem a s name (h name (List.mem_cons_self _ _))]
    simp only
    rw [ih _ (fun n hn => h n (List.mem_cons_of_mem _ hn)), pick_pick]

theorem stripLoop_of_unknown (a : Alias) (names : List String) (s : Alias)
    (h : ∃ n ∈ names, n ∉ Alias.Fields) :
    ∃ n ∈ names, n ∉ Alias.Fields ∧
      stripLoop a s names = (Alias.zero, some ("cannot set field " ++ n)) := by
  induction names generalizing s with
  | nil => simp at h
  | cons name rest ih =>
    by_cases hn : name ∈ Alias.Fields
    · obtain ⟨n, hmem, hnot⟩ := h
      have hrest : ∃ n ∈ rest, n ∉ Alias.Fields := by
        rcases List.mem_cons.1 hmem with rfl | h'
        · exact absurd hn hnot
        · exact ⟨n, h', hnot⟩
      obtain ⟨n', hn', hnot', heq⟩ := ih (pick a s [name]) hrest
      refine ⟨n', List.mem_cons_of_mem _ hn', hnot', ?_⟩
      rw [stripLoop, setField_of_mem a s name hn]
      exact heq
    · refine ⟨name, List.mem_cons_self _ _, hn, ?_⟩
      rw [stripLoop, setField_of_not_mem a s name hn]

theorem stripDataLoop_of_unknown (names : List String) (h : ∃ n ∈ names, n ∉ Alias.Fields)
    (dest : Aliases) (a : Alias) (rest : Aliases) :
    (stripDataLoop names dest (a :: rest)).1 = none ∧
    (stripDataLoop names dest (a :: rest)).2.isSome = true := by
  obtain ⟨n, -, -, heq⟩ := stripLoop_of_unknown a names Alias.zero h
  simp [stripDataLoop, Alias.StripData, heq]

theorem append_cons_inj_left (c : Char) (x₁ x₂ y₁ y₂ : List Char)
    (h₁ : c ∉ x₁) (h₂ : c ∉ x₂) (h : x₁ ++ c :: y₁ = x₂ ++ c :: y₂) :
    x₁ = x₂ ∧ y₁ = y₂ := by
  induction x₁ generalizing x₂ with
  | nil =>
    cases x₂ with
    | nil => simpa using h
    | cons d x₂ =>
      simp only [List.nil_append, List.cons_append, List.cons.injEq] at h
      exact absurd (h.1 ▸ List.mem_cons_self _ _) h₂
  | cons d x₁ ih =>
    cases x₂ with
    | nil =>
      simp only [List.nil_append, List.cons_append, List.cons.injEq] at h
      exact absurd (h.1 ▸ List.mem_cons_self _ _) h₁
    | cons e x₂ =>
      simp only [List.cons_append, List.cons.injEq] at h
      obtain ⟨hx, hy⟩ := ih x₂ (fun hm => h₁ (List.mem_cons_of_mem _ hm))
        (fun hm => h₂ (List.mem_cons_of_mem _ hm)) h.2
      exact ⟨by rw [h.1, hx], hy⟩

theorem append_cons_inj_right (c : Char) (x₁ x₂ y₁ y₂ : List Char)
    (h₁ : c ∉ y₁) (h₂ : c ∉ y₂) (h : x₁ ++ c :: y₁ = x₂ ++ c :: y₂) :
    x₁ = x₂ ∧ y₁ = y₂ := by
  have hr : y₁.reverse ++ c :: x₁.reverse = y₂.reverse ++ c :: x₂.reverse := by
    have := congrArg List.reverse h
    simpa using this
  obtain ⟨hy, hx⟩ := append_cons_inj_left c _ _ _ _ (by simpa using h₁) (by simpa using h₂) hr
  exact ⟨List.reverse_injective hx, List.reverse_injective hy⟩

theorem key_toList (a : Alias) : a.Key.toList = a.Alias.toList ++ '@' :: a.Domain.toList := by
  simp [Alias.Key, String.toList]

theorem less_iff (a b : Alias) :
    Less a b = true ↔ a.Domain < b.Domain ∨ (a.Domain = b.Domain ∧ a.Alias < b.Alias) := by
  unfold Less
  rcases lt_trichotomy a.Domain b.Domain with h | h | h
  · simp [h]
  · simp [h]
  · have h1 : ¬ a.Domain < b.Domain := not_lt.2 (le_of_lt h)
    have h2 : a.Domain ≠ b.Domain := ne_of_gt h
    have h3 : a.Domain > b.Domain := h
    simp [h1, h2, h3]

theorem notAfter_iff (a b : Alias) :
    NotAfter a b ↔ a.Domain < b.Domain ∨ (a.Domain = b.Domain ∧ a.Alias ≤ b.Alias) := by
  unfold NotAfter
  rw [← Bool.not_eq_true, less_iff]
  rcases lt_trichotomy a.Domain b.Domain with h | h | h
  · have h1 : ¬ b.Domain < a.Domain := not_lt.2 (le_of_lt h)
    have h2 : b.Domain ≠ a.Domain := ne_of_gt h
    simp [h, h1, h2]
  · simp [h]
  · have h1 : ¬ a.Domain < b.Domain := not_lt.2 (le_of_lt h)
    have h2 : a.Domain ≠ b.Domain := ne_of_gt h
    simp [h, h1, h2]

instance notAfter_total : IsTotal Alias NotAfter where
  total a b := by
    rw [notAfter_iff, notAfter_iff]
    rcases lt_trichotomy a.Domain b.Domain with h | h | h
    · exact Or.inl (Or.inl h)
    · rcases le_total a.Alias b.Alias with h' | h'
      · exact Or.inl (Or.inr ⟨h, h'⟩)
      · exact Or.inr (Or.inr ⟨h.symm, h'⟩)
    · exact Or.inr (Or.inl h)

instance notAfter_trans : IsTrans Alias NotAfter where
  trans a b c := by
    rw [notAfter_iff, notAfter_iff, notAfter_iff]
    rintro (h | ⟨h, h'⟩) (g | ⟨g, g'⟩)
    · exact Or.inl (lt_trans h g)
    · exact Or.inl (g ▸ h)
    · exact Or.inl (h ▸ g)
    · exact Or.inr ⟨h.trans g, le_trans h' g'⟩

theorem sortAliases_perm (s : Aliases) : (sortAliases s).Perm s :=
  List.perm_insertionSort _ s

theorem sortAliases_sorted (s : Aliases) : (sortAliases s).Pairwise NotAfter :=
  List.sorted_insertionSort _ s

theorem key_eq_of_fields (a b : Alias) (h₁ : a.Alias = b.Alias) (h₂ : a.Domain = b.Domain) :
    a.Key = b.Key := by
  simp [Alias.Key, h₁, h₂]

/-- A sorted collection with pairwise distinct keys is strictly ascending. -/
theorem before_of_notAfter (l : Aliases) (hl : l.Pairwise NotAfter)
    (hk : (l.map Alias.Key).Nodup) : l.Pairwise Before := by
  have hk' : l.Pairwise (fun a b => a.Key ≠ b.Key) := List.pairwise_map.1 hk
  refine (hl.and hk').imp ?_
  rintro a b ⟨hab, hne⟩
  rcases (notAfter_iff a b).1 hab with h | ⟨h, h'⟩
  · exact Or.inl h
  · refine Or.inr ⟨h, lt_of_le_of_ne h' ?_⟩
    intro he
    exact hne (key_eq_of_fields a b he h)

theorem sortAliases_strict (s : Aliases) (hs : (s.map Alias.Key).Nodup) :
    (sortAliases s).Pairwise Before :=
  before_of_notAfter _ (sortAliases_sorted s)
    (((sortAliases_perm s).map Alias.Key).nodup_iff.2 hs)

instance before_antisymm : IsAntisymm Alias Before where
  antisymm a b := by
    rintro (h | ⟨h, h'⟩) (g | ⟨g, g'⟩)
    · exact absurd g (lt_asymm h)
    · exact absurd h (g ▸ lt_irrefl _)
    · exact absurd g (h ▸ lt_irrefl _)
    · exact absurd g' (lt_asymm h')

/-- Two sorted arrangements of a collection with pairwise distinct keys coincide: the
order in which the records reach the sort, and the sorting method, do not matter. -/
theorem sorted_arrangement_unique (l₁ l₂ : Aliases) (hp : l₁.Perm l₂)
    (hk : (l₂.map Alias.Key).Nodup) (h₁ : l₁.Pairwise NotAfter) (h₂ : l₂.Pairwise NotAfter) :
    l₁ = l₂ :=
  List.eq_of_perm_of_sorted hp
    (before_of_notAfter l₁ h₁ ((hp.map Alias.Key).nodup_iff.2 hk))
    (before_of_notAfter l₂ h₂ hk)

theorem foldl_insert_entries (s : Aliases) (m : AList (fun _ : String => Alias))
    (hs : (s.map Alias.Key).Nodup) (hd : ∀ a ∈ s, a.Key ∉ m) :
    (s.foldl (fun m a => m.insert a.Key a) m).entries
      = s.reverse.map (fun a => (⟨a.Key, a⟩ : Sigma fun _ : String => Alias)) ++ m.entries := by
  induction s generalizing m with
  | nil => simp
  | cons a s ih =>
    have hs' : (s.map Alias.Key).Nodup := (List.nodup_cons.1 hs).2
    have ha : a.Key ∉ s.map Alias.Key := (List.nodup_cons.1 hs).1
    have hd' : ∀ b ∈ s, b.Key ∉ m.insert a.Key a := by
      intro b hb hmem
      rcases (AList.mem_insert m).1 hmem with h | h
      · exact ha (h ▸ List.mem_map_of_mem _ hb)
      · exact hd b (List.mem_cons_of_mem _ hb) h
    rw [List.foldl_cons, ih _ hs' hd',
      AList.insert_entries_of_neg (hd a (List.mem_cons_self _ _))]
    simp

theorem toMap_range (s : Aliases) (hs : (s.map Alias.Key).Nodup) :
    (Aliases.ToMap s).range = s.reverse.map (fun a => (a.Key, a)) := by
  simp only [Aliases.ToMap, AliasesMap.range]
  rw [foldl_insert_entries s ∅ hs (fun a _ => AList.not_mem_empty _)]
  simp [Function.comp_def]

theorem toMap_get_eq_some (s : Aliases) (hs : (s.map Alias.Key).Nodup) (k : String)
    (b : Alias) : (Aliases.ToMap s).get k = some b ↔ b ∈ s ∧ b.Key = k := by
  simp only [Aliases.ToMap, AliasesMap.get]
  rw [← Option.mem_def, AList.mem_lookup_iff,
    foldl_insert_entries s ∅ hs (fun a _ => AList.not_mem_empty _)]
  simp only [AList.empty_entries, List.append_nil, List.mem_map, List.mem_reverse]
  constructor
  · rintro ⟨a, ha, he⟩
    cases he
    exact ⟨ha, rfl⟩
  · rintro ⟨hb, rfl⟩
    exact ⟨b, hb, rfl⟩

theorem toMap_get_eq_none (s : Aliases) (hs : (s.map Alias.Key).Nodup) (k : String) :
    (Aliases.ToMap s).get k = none ↔ ∀ b ∈ s, b.Key ≠ k := by
  constructor
  · intro h b hb hk
    have := (toMap_get_eq_some s hs k b).2 ⟨hb, hk⟩
    rw [h] at this
    exact Option.noConfusion this
  · intro h
    cases hg : (Aliases.ToMap s).get k with
    | none => rfl
    | some b =>
      obtain ⟨hb, hk⟩ := (toMap_get_eq_some s hs k b).1 hg
      exact absurd hk (h b hb)

theorem diff_foldl (m2 : AliasesMap) (l : List (String × Alias)) (acc : Aliases) :
    l.foldl (fun (diff : Aliases) e =>
      match m2.get e.1 with
      | none => diff ++ [e.2]
      | some b => if !(e.2.Equal b) then diff ++ [e.2] else diff) acc
      = acc ++ (l.filter (keeps m2)).map Prod.snd := by
  induction l generalizing acc with
  | nil => simp
  | cons e l ih =>
    rw [List.foldl_cons, ih]
    cases hg : m2.get e.1 with
    | none => simp [List.filter_cons, keeps, hg]
    | some b =>
      cases he : e.2.Equal b <;> simp [List.filter_cons, keeps, hg, he]

theorem diff_eq_sort_filter (s s2 : Aliases) (hs : (s.map Alias.Key).Nodup) :
    Aliases.Diff s s2
      = sortAliases (s.reverse.filter (fun a => keeps (Aliases.ToMap s2) (a.Key, a))) := by
  simp only [Aliases.Diff]
  rw [diff_foldl, toMap_range s hs, List.nil_append, List.filter_map, List.map_map]
  congr 1
  simp [Function.comp_def]

theorem keeps_iff (s2 : Aliases) (hs2 : (s2.map Alias.Key).Nodup) (a : Alias) :
    keeps (Aliases.ToMap s2) (a.Key, a) = true ↔
      (∀ b ∈ s2, b.Key ≠ a.Key) ∨ (∃ b ∈ s2, b.Key = a.Key ∧ a.Equal b = false) := by
  unfold keeps
  cases hg : (Aliases.ToMap s2).get a.Key with
  | none =>
    have := (toMap_get_eq_none s2 hs2 a.Key).1 hg
    simp only [true_iff]
    exact Or.inl this
  | some b =>
    obtain ⟨hb, hk⟩ := (toMap_get_eq_some s2 hs2 a.Key b).1 hg
    simp only [Bool.not_eq_true']
    constructor
    · intro h
      exact Or.inr ⟨b, hb, hk, h⟩
    · rintro (h | ⟨b', hb', hk', h⟩)
      · exact absurd hk (h b hb)
      · have : (Aliases.ToMap s2).get a.Key = some b' :=
          (toMap_get_eq_some s2 hs2 a.Key b').2 ⟨hb', hk'⟩
        rw [hg] at this
        cases this
        exact h

theorem range_get (m : AliasesMap) (e : String × Alias) (he : e ∈ m.range) :
    m.get e.1 = some e.2 := by
  cases m with
  | none => simp [AliasesMap.range] at he
  | some l =>
    simp only [AliasesMap.range, List.mem_map] at he
    obtain ⟨x, hx, rfl⟩ := he
    simp only [AliasesMap.get]
    exact AList.mem_lookup_iff.2 hx

theorem prepend_nil {σ κ α : Type} (r : Res σ κ α) : r.prepend [] = r := by
  cases r <;> rfl

theorem prepend_prepend {σ κ α : Type} (c c' : List κ) (r : Res σ κ α) :
    (r.prepend c').prepend c = r.prepend (c ++ c') := by
  cases r <;> simp [Res.prepend]

theorem prepend_done {σ κ α : Type} (c c' : List κ) (v : α) (s : σ) :
    (Res.done v s c' : Res σ κ α).prepend c = Res.done v s (c ++ c') := rfl

theorem bind_eq {σ κ α β : Type} (m : Op σ κ α) (f : α → Op σ κ β) :
    (m >>= f) = Op.bind m f := rfl

theorem pure_eq {σ κ α : Type} (v : α) : (pure v : Op σ κ α) = Op.pure v := rfl

theorem bind_get {σ κ α : Type} (f : σ → Op σ κ α) (s : σ) :
    (Op.get >>= f) s = f s s := by
  show Op.bind Op.get f s = f s s
  simp only [Op.bind, Op.get, prepend_nil]

theorem opBind_get {σ κ α : Type} (f : σ → Op σ κ α) (s : σ) :
    Op.bind Op.get f s = f s s := bind_get f s

theorem opBind_set {σ κ α : Type} (s' : σ) (f : Unit → Op σ κ α) (s : σ) :
    Op.bind (Op.set s') f s = f () s' := by
  simp only [Op.bind, Op.set, prepend_nil]

theorem opBind_call {σ κ α : Type} (k : κ) (f : Unit → Op σ κ α) (s : σ) :
    Op.bind (Op.call k) f s = (f () s).prepend [k] := by
  simp only [Op.bind, Op.call]

theorem opBind_pure {σ κ α β : Type} (v : α) (f : α → Op σ κ β) (s : σ) :
    Op.bind (Op.pure v) f s = f v s := by
  simp only [Op.bind, Op.pure, prepend_nil]

theorem opBind_panic {σ κ α β : Type} (msg : String) (f : α → Op σ κ β) (s : σ) :
    Op.bind (Op.panic msg : Op σ κ α) f s = Res.panic msg s [] := rfl

theorem opPure_run {σ κ α : Type} (v : α) (s : σ) :
    (Op.pure v : Op σ κ α) s = Res.done v s [] := rfl

theorem pure_run {σ κ α : Type} (v : α) (s : σ) :
    (pure v : Op σ κ α) s = Res.done v s [] := rfl

theorem index_not_alias_key : HasPrefix "index" "alias-" = false := by decide

theorem foldl_indexStep (objs : List S3.Object) (st : S3.IndexScan) :
    (objs.foldl S3.indexStep st).aliasCount = st.aliasCount + (S3.aliasKeys objs).length ∧
    (objs.foldl S3.indexStep st).indexBeforeAlias =
      (st.indexBeforeAlias || (!st.foundAlias &&
        (objs.takeWhile (fun o => !HasPrefix o.Key "alias-")).any
          (fun o => o.Key == "index"))) := by
  induction objs generalizing st with
  | nil => simp [S3.aliasKeys]
  | cons o rest ih =>
    obtain ⟨n, b, f⟩ := st
    rw [List.foldl_cons]
    obtain ⟨ih1, ih2⟩ := ih (S3.indexStep ⟨n, b, f⟩ o)
    rw [ih1, ih2]
    by_cases hk : "index" = o.Key
    · have hp : HasPrefix o.Key "alias-" = false := hk ▸ index_not_alias_key
      cases b <;> cases f <;>
        simp [S3.indexStep, S3.aliasKeys, List.filter_cons, List.takeWhile_cons, hp, hk.symm,
          index_not_alias_key]
    · have hk' : ¬ o.Key = "index" := fun h => hk h.symm
      cases hp : HasPrefix o.Key "alias-" <;> cases b <;> cases f <;>
        simp [S3.indexStep, S3.aliasKeys, List.filter_cons, List.takeWhile_cons, hp, hk, hk']
      all_goals omega

theorem indexBeforeAliasCount_eq (objs : List S3.Object) :
    S3.indexBeforeAliasCount objs =
      ((objs.takeWhile (fun o => !HasPrefix o.Key "alias-")).any (fun o => o.Key == "index"),
        (S3.aliasKeys objs).length) := by
  obtain ⟨h1, h2⟩ := foldl_indexStep objs ⟨0, false, false⟩
  simp only [S3.indexBeforeAliasCount, h1, h2]
  simp

theorem indexPrecedesAliases_iff (objs : List S3.Object) :
    S3.IndexPrecedesAliases objs ↔
      (objs.takeWhile (fun o => !HasPrefix o.Key "alias-")).any (fun o => o.Key == "index")
        = true := by
  constructor
  · rintro ⟨front, rest, rfl, ⟨o, ho, hk⟩, hfront⟩
    have hall : ∀ x ∈ front, (fun o : S3.Object => !HasPrefix o.Key "alias-") x = true := by
      intro x hx
      simp [hfront x hx]
    rw [List.takeWhile_append_of_pos hall]
    rw [List.any_eq_true]
    exact ⟨o, List.mem_append_left _ ho, by simp [hk]⟩
  · intro h
    rw [List.any_eq_true] at h
    obtain ⟨o, ho, hk⟩ := h
    refine ⟨objs.takeWhile (fun o => !HasPrefix o.Key "alias-"),
      objs.dropWhile (fun o => !HasPrefix o.Key "alias-"),
      (List.takeWhile_append_dropWhile _ _).symm, ⟨o, ho, by simpa using hk⟩, ?_⟩
    intro x hx
    have := List.mem_takeWhile_imp hx
    simpa using this

theorem loadIndex_eq (recs : S3.IndexAliases) (s : S3.Storer)
    (l : AList (fun _ : String => Alias)) (hl : s.aliases = some l) :
    S3.Storer.loadIndex recs s =
      .done () { s with aliases := some (recs.foldl
        (fun l a => l.insert (S3.keyIndex a.Alias a.Domain) a.ToAlias) l) } [] := by
  induction recs generalizing s l with
  | nil =>
    obtain ⟨ro, clk, al, ob, svc, lib, md⟩ := s
    simp only at hl
    subst hl
    rfl
  | cons a rest ih =>
    rw [S3.Storer.loadIndex]
    simp only [hl]
    rw [ih _ (l.insert (S3.keyIndex a.Alias a.Domain) a.ToAlias) rfl]
    rfl

theorem opBind_listKeys {α : Type} (f : Option Err → Op S3.Storer S3.Call α) (s : S3.Storer) :
    Op.bind S3.Storer.listKeys f s =
      (f s.svc.ListObjectsV2Pages.2
        { s with objects := s.objects ++ s.svc.ListObjectsV2Pages.1 }).prepend
        [S3.Call.listObjects] := rfl

theorem opBind_of_done {σ κ α β : Type} (m : Op σ κ α) (f : α → Op σ κ β) (s s' : σ) (v : α)
    (c : List κ) (h : m s = .done v s' c) : Op.bind m f s = (f v s').prepend c := by
  simp only [Op.bind, h]

theorem open_trusted_eq (readOnly : Bool) (s : S3.Storer)
    (l : AList (fun _ : String => Alias)) (body etag : String) (recs : S3.IndexAliases)
    (hl : s.aliases = some l)
    (hlist : s.svc.ListObjectsV2Pages.2 = none)
    (hkeys : S3.aliasKeys (s.listed readOnly).objects ≠ [])
    (hidx : S3.IndexPrecedesAliases (s.listed readOnly).objects)
    (hget : s.svc.GetObject "index" = .ok (body, etag))
    (hdec : s.lib.decodeIndex body = .ok recs)
    (hlen : recs.length = (S3.aliasKeys (s.listed readOnly).objects).length) :
    S3.Storer.Open readOnly s =
      .done none
        { s.listed readOnly with
          aliases := some (recs.foldl
            (fun l a => l.insert (S3.keyIndex a.Alias a.Domain) a.ToAlias) l)
          indexMD5 := trimQuotes etag }
        [S3.Call.listObjects, S3.Call.getObject "index"] := by
  have hpos : 0 < (S3.aliasKeys (s.listed readOnly).objects).length :=
    List.length_pos.2 hkeys
  rw [indexPrecedesAliases_iff] at hidx
  simp only [S3.Storer.listed] at hpos hidx hlen
  simp only [S3.Storer.Open, bind_eq, pure_eq, opBind_get, opBind_set, opBind_call, opBind_pure,
    opPure_run, opBind_listKeys, hlist, indexBeforeAliasCount_eq, hidx, hpos, hget, hdec, hlen]
  simp only [gt_iff_lt, hpos, decide_True, Bool.and_self, if_true, opBind_call]
  have hload := loadIndex_eq recs (s.listed readOnly) l hl
  simp only [S3.Storer.listed] at hload
  rw [opBind_of_done _ _ _ _ _ _ hload]
  simp only [opBind_get, opBind_set, opPure_run, prepend_done]
  rfl

theorem open_eq (readOnly : Bool) (s : S3.Storer) :
    S3.Storer.Open readOnly s =
      match s.svc.ListObjectsV2Pages.2 with
      | some err =>
        .done (some err)
          { s with readOnly := readOnly, objects := s.objects ++ s.svc.ListObjectsV2Pages.1 }
          [S3.Call.listObjects]
      | none =>
        if (decide ((S3.indexBeforeAliasCount (s.listed readOnly).objects).2 > 0) &&
            (S3.indexBeforeAliasCount (s.listed readOnly).objects).1) = true then
          match s.svc.GetObject "index" with
          | .error err =>
            .done (some err) (s.listed readOnly) [S3.Call.listObjects, S3.Call.getObject "index"]
          | .ok (body, etag) =>
            match s.lib.decodeIndex body with
            | .error err =>
              .done (some err) (s.listed readOnly)
                [S3.Call.listObjects, S3.Call.getObject "index"]
            | .ok recs =>
              if recs.length = (S3.indexBeforeAliasCount (s.listed readOnly).objects).2 then
                (Op.bind (S3.Storer.loadIndex recs) (fun _ => Op.bind Op.get fun s2 =>
                  Op.bind (Op.set { s2 with indexMD5 := trimQuotes etag }) fun _ =>
                    Op.pure none) (s.listed readOnly)).prepend
                  [S3.Call.listObjects, S3.Call.getObject "index"]
              else
                (S3.Storer.scanAll (s.listed readOnly).objects (s.listed readOnly)).prepend
                  [S3.Call.listObjects, S3.Call.getObject "index"]
        else
          (S3.Storer.scanAll (s.listed readOnly).objects (s.listed readOnly)).prepend
            [S3.Call.listObjects] := by
  simp only [S3.Storer.Open, bind_eq, pure_eq, opBind_get, opBind_set, opBind_call, opBind_pure,
    opPure_run, opBind_listKeys, S3.Storer.listed, S3.Storer.scanAll]
  cases hlist : s.svc.ListObjectsV2Pages.2 with
  | some err => simp only [opPure_run, prepend_done]; rfl
  | none =>
    simp only [opBind_get, opBind_set]
    split
    · simp only [opBind_call]
      cases hget : s.svc.GetObject "index" with
      | error err => simp only [opPure_run, prepend_done]; rfl
      | ok r =>
        obtain ⟨body, etag⟩ := r
        simp only
        cases hdec : s.lib.decodeIndex body with
        | error err => simp only [opPure_run, prepend_done]; rfl
        | ok recs =>
          simp only
          split <;> simp only [prepend_prepend] <;> rfl
    · rfl

theorem derefMetadata_cases (m : Metadata) (k : String) (s : S3.Storer) :
    (∃ v, S3.derefMetadata m k s = .done v s []) ∨
    (∃ msg, S3.derefMetadata m k s = .panic msg s []) := by
  unfold S3.derefMetadata
  cases m.get k with
  | none => exact Or.inr ⟨_, rfl⟩
  | some v => exact Or.inl ⟨v, rfl⟩

theorem opBind_deref_cases {α : Type} (m : Metadata) (k : String)
    (f : String → Op S3.Storer S3.Call α) (s : S3.Storer) :
    (∃ v, Op.bind (S3.derefMetadata m k) f s = f v s) ∨
    (∃ msg, Op.bind (S3.derefMetadata m k) f s = .panic msg s []) := by
  rcases derefMetadata_cases m k s with ⟨v, h⟩ | ⟨msg, h⟩
  · exact Or.inl ⟨v, by rw [opBind_of_done _ _ _ _ _ _ h, prepend_nil]⟩
  · exact Or.inr ⟨msg, by simp only [Op.bind, h]⟩

/-- `headS3Key` sends exactly one request, the HEAD of its key, and leaves the Storer as
it is, however it ends. -/
theorem headS3Key_cases (key : String) (s : S3.Storer) :
    (∃ v, S3.Storer.headS3Key key s = .done v s [S3.Call.headObject key]) ∨
    (∃ msg, S3.Storer.headS3Key key s = .panic msg s [S3.Call.headObject key]) := by
  simp only [S3.Storer.headS3Key, bind_eq, pure_eq, opBind_call, opBind_get]
  cases s.svc.HeadObject key with
  | error err =>
    simp only
    split <;> exact Or.inl ⟨_, rfl⟩
  | ok metadata =>
    simp only
    rcases opBind_deref_cases metadata "Alias" _ s with ⟨v1, h1⟩ | ⟨msg, h⟩
    · rw [h1]
      rcases opBind_deref_cases metadata "Domain" _ s with ⟨v2, h2⟩ | ⟨msg, h⟩
      · rw [h2]
        rcases opBind_deref_cases metadata "Email_addresses" _ s with ⟨v3, h3⟩ | ⟨msg, h⟩
        · rw [h3]
          rcases opBind_deref_cases metadata "Description" _ s with ⟨v4, h4⟩ | ⟨msg, h⟩
          · rw [h4]
            rcases opBind_deref_cases metadata "Suspended" _ s with ⟨v5, h5⟩ | ⟨msg, h⟩
            · rw [h5]
              exact Or.inl ⟨_, rfl⟩
            · rw [h]; exact Or.inr ⟨_, rfl⟩
          · rw [h]; exact Or.inr ⟨_, rfl⟩
        · rw [h]; exact Or.inr ⟨_, rfl⟩
      · rw [h]; exact Or.inr ⟨_, rfl⟩
    · rw [h]; exact Or.inr ⟨_, rfl⟩

theorem addAlias_cases (a : Alias) (s : S3.Storer) :
    (∃ s', S3.Storer.addAlias a s = .done () s' []) ∨
    (∃ msg s', S3.Storer.addAlias a s = .panic msg s' []) := by
  unfold S3.Storer.addAlias
  rcases h : s.aliases.Add a with ⟨m, _ | msg⟩
  · exact Or.inl ⟨_, rfl⟩
  · exact Or.inr ⟨_, _, rfl⟩

/-- A full scan that returns has sent one HEAD request for every `alias-` key of the
listing, in listing order, and nothing else. -/
theorem getAliases_done_calls (objs : List S3.Object) (s s' : S3.Storer) (c : List S3.Call)
    (h : S3.Storer.getAliases objs s = .done () s' c) :
    c = (S3.aliasKeys objs).map S3.Call.headObject := by
  induction objs generalizing s s' c with
  | nil =>
    simp only [S3.Storer.getAliases, pure_run] at h
    cases h
    rfl
  | cons o rest ih =>
    rw [S3.Storer.getAliases] at h
    by_cases hp : HasPrefix o.Key "alias-" = true
    · rw [if_pos hp] at h
      have hk : S3.aliasKeys (o :: rest) = o.Key :: S3.aliasKeys rest := by
        simp [S3.aliasKeys, List.filter_cons, hp]
      rw [hk, List.map_cons]
      simp only [bind_eq] at h
      rcases headS3Key_cases o.Key s with ⟨v, hv⟩ | ⟨msg, hv⟩
      · rw [opBind_of_done _ _ _ _ _ _ hv] at h
        obtain ⟨v1, v2⟩ := v
        cases v1 with
        | none => simp [Op.bind, Op.panic, Res.prepend] at h
        | some a =>
          simp only at h
          rcases addAlias_cases a s with ⟨s1, ha⟩ | ⟨msg, s1, ha⟩
          · rw [opBind_of_done _ _ _ _ _ _ ha, prepend_nil] at h
            cases hr : S3.Storer.getAliases rest s1 with
            | done u s2 c2 =>
              rw [hr] at h
              simp only [Res.prepend, Res.done.injEq] at h
              obtain ⟨-, -, hc⟩ := h
              rw [← hc, ih s1 s2 c2 hr]
              rfl
            | panic msg s2 c2 =>
              rw [hr] at h
              simp [Res.prepend] at h
          · simp [Op.bind, ha, Res.prepend] at h
      · simp [Op.bind, hv] at h
    · rw [if_neg hp] at h
      have hk : S3.aliasKeys (o :: rest) = S3.aliasKeys rest := by
        simp [S3.aliasKeys, List.filter_cons, hp]
      rw [hk]
      exact ih s s' c h

theorem scanAll_done (objs : List S3.Object) (s s' : S3.Storer) (v : Option Err)
    (c : List S3.Call) (h : S3.Storer.scanAll objs s = .done v s' c) :
    S3.Storer.getAliases objs s = .done () s' c ∧ v = none := by
  unfold S3.Storer.scanAll at h
  cases hr : S3.Storer.getAliases objs s with
  | done u s2 c2 =>
    rw [opBind_of_done _ _ _ _ _ _ hr, opPure_run, prepend_done] at h
    simp only [List.append_nil, Res.done.injEq] at h
    obtain ⟨hv, hs, hc⟩ := h
    subst hs hc
    exact ⟨rfl, hv.symm⟩
  | panic msg s2 c2 =>
    simp [Op.bind, hr] at h

theorem prepend_eq_done {σ κ α : Type} (pre c : List κ) (r : Res σ κ α) (v : α) (s : σ)
    (h : r.prepend pre = .done v s c) : ∃ c', r = .done v s c' ∧ c = pre ++ c' := by
  cases r with
  | done v' s' c' =>
    simp only [Res.prepend, Res.done.injEq] at h
    obtain ⟨hv, hs, hc⟩ := h
    exact ⟨c', by rw [hv, hs], hc.symm⟩
  | panic msg s' c' => simp [Res.prepend] at h

theorem open_flag_iff (objs : List S3.Object) :
    (decide ((S3.indexBeforeAliasCount objs).2 > 0) && (S3.indexBeforeAliasCount objs).1) = true ↔
      S3.aliasKeys objs ≠ [] ∧ S3.IndexPrecedesAliases objs := by
  rw [indexBeforeAliasCount_eq, indexPrecedesAliases_iff]
  simp [List.length_pos]

theorem foldl_filter_values (p : Alias → Bool) (l : List (String × Alias)) (acc : Aliases) :
    l.foldl (fun (aliases : Aliases) e => if p e.2 then aliases ++ [e.2] else aliases) acc
      = acc ++ (l.map (fun e => e.2)).filter p := by
  induction l generalizing acc with
  | nil => simp
  | cons e l ih =>
    rw [List.foldl_cons, ih]
    cases h : p e.2 <;> simp [List.filter_cons, h]

theorem sortAliases_ascending (l : Aliases) :
    (sortAliases l).Pairwise
      (fun a b => a.Domain < b.Domain ∨ (a.Domain = b.Domain ∧ a.Alias ≤ b.Alias)) :=
  (sortAliases_sorted l).imp (fun {a b} h => (notAfter_iff a b).1 h)

theorem syncLoop_eq_applyPlan {σ κ : Type} (env : Cmd.Sync σ κ) (yes : Bool)
    (destMap : AliasesMap) (entries : List (String × Alias)) :
    Cmd.syncLoop env yes destMap entries
      = Cmd.applyPlan env yes (entries.filterMap (Cmd.planFor env destMap)) := by
  induction entries with
  | nil => rfl
  | cons e rest ih =>
    obtain ⟨k, v⟩ := e
    rw [Cmd.syncLoop, ih]
    cases hg : destMap.get k with
    | none =>
      have hp : Cmd.planFor env destMap (k, v) = some (Cmd.Action.add v) := by
        simp [Cmd.planFor, hg]
      rw [List.filterMap_cons_some hp, Cmd.applyPlan]
      cases yes <;> cases hc : env.CheckYes ("Add alias for " ++ v.Alias ++ "@" ++ v.Domain ++
        " to " ++ env.TypeName ++ "?") <;>
        simp [Cmd.confirms, hc, bind_eq, pure_eq, Cmd.Action.record]
    | some d =>
      cases he : v.Equal d with
      | true =>
        have hp : Cmd.planFor env destMap (k, v) = none := by
          simp [Cmd.planFor, hg, he]
        rw [List.filterMap_cons_none hp]
        simp [he]
      | false =>
        have hp : Cmd.planFor env destMap (k, v)
            = some (Cmd.Action.update v (env.UnifiedDiff v d)) := by
          simp [Cmd.planFor, hg, he]
        rw [List.filterMap_cons_some hp, Cmd.applyPlan]
        cases yes <;> cases hc : env.CheckYes ("Update alias for " ++ v.Alias ++ "@" ++
          v.Domain ++ " to " ++ env.TypeName ++ ": " ++ env.UnifiedDiff v d ++ "?") <;>
          simp [Cmd.confirms, hc, he, bind_eq, pure_eq, Cmd.Action.record]

theorem applyPlan_declined {σ κ : Type} (env : Cmd.Sync σ κ) (yes : Bool)
    (acts : List Cmd.Action) (s : σ) (h : ∀ act ∈ acts, Cmd.confirms env yes act = false) :
    Cmd.applyPlan env yes acts s = .done (acts, none) s [] := by
  induction acts with
  | nil => rfl
  | cons act rest ih =>
    rw [Cmd.applyPlan, if_neg (by simp [h act (List.mem_cons_self _ _)]),
      opBind_of_done _ _ _ _ _ _ (ih (fun a ha => h a (List.mem_cons_of_mem _ ha)))]
    rfl

theorem time_before_iff (t u : Time) :
    t.Before u = true ↔ t.sec < u.sec ∨ (t.sec = u.sec ∧ t.nsec.val < u.nsec.val) := by
  simp only [Time.Before, Bool.or_eq_true, Bool.and_eq_true, decide_eq_true_eq, beq_iff_eq,
    Fin.lt_def]

theorem time_equal_iff' (t u : Time) :
    t.Equal u = true ↔ t.sec = u.sec ∧ t.nsec.val = u.nsec.val := by
  simp only [Time.Equal, Bool.and_eq_true, beq_iff_eq, Fin.ext_iff]

theorem object_less_iff (a b : S3.Object) :
    S3.Object.Less a b = true ↔ objectRank a < objectRank b := by
  unfold S3.Object.Less objectRank
  rw [Prod.Lex.lt_iff, Prod.Lex.lt_iff]
  simp only [ofLex_toLex]
  by_cases he : b.LastModified.Equal a.LastModified = true
  · rw [if_pos he]
    obtain ⟨h1, h2⟩ := (time_equal_iff' _ _).1 he
    simp [h1, h2]
  · rw [if_neg he, time_before_iff]
    have hne : ¬ (b.LastModified.sec = a.LastModified.sec ∧
        b.LastModified.nsec.val = a.LastModified.nsec.val) :=
      fun h => he ((time_equal_iff' _ _).2 h)
    constructor
    · intro h
      exact Or.inl h
    · rintro (h | ⟨h, -⟩)
      · exact h
      · exfalso
        apply hne
        have := congrArg ofLex h
        simp only [ofLex_toLex, Prod.mk.injEq] at this
        exact ⟨this.1.symm, this.2.symm⟩

theorem object_not_less_iff (a b : S3.Object) :
    S3.Object.Less a b = false ↔ objectRank b ≤ objectRank a := by
  rw [← Bool.not_eq_true, object_less_iff, not_lt]

instance objectOrder_total : IsTotal S3.Object (fun a b => S3.Object.Less a b = false) where
  total a b := by
    rw [object_not_less_iff, object_not_less_iff]
    exact le_total _ _

instance objectOrder_trans : IsTrans S3.Object (fun a b => S3.Object.Less a b = false) where
  trans a b c := by
    rw [object_not_less_iff, object_not_less_iff, object_not_less_iff]
    exact fun h₁ h₂ => le_trans h₂ h₁

theorem object_not_less_newerFirst (a b : S3.Object) (h : S3.Object.Less a b = false) :
    S3.NewerFirst a b := by
  rw [object_not_less_iff] at h
  unfold objectRank at h
  rw [Prod.Lex.le_iff] at h
  simp only [ofLex_toLex] at h
  unfold S3.NewerFirst
  rcases h with h | ⟨h, hk⟩
  · rw [Prod.Lex.lt_iff] at h
    exact Or.inl ((time_before_iff _ _).2 h)
  · have := congrArg ofLex h
    simp only [ofLex_toLex, Prod.mk.injEq] at this
    exact Or.inr ⟨⟨this.1.symm, Fin.ext this.2.symm⟩, hk⟩

theorem sortReverse_sorted (objs : List S3.Object) :
    (S3.sortReverse objs).Pairwise S3.NewerFirst :=
  (List.sorted_insertionSort (fun a b => S3.Object.Less a b = false) objs).imp
    (fun {a b} h => object_not_less_newerFirst a b h)

theorem sortReverse_perm (objs : List S3.Object) : (S3.sortReverse objs).Perm objs :=
  List.perm_insertionSort _ objs

theorem state_prepend {σ κ α : Type} (c : List κ) (r : Res σ κ α) :
    (r.prepend c).state = r.state := by
  cases r <;> rfl

/-- A sequence of two steps that both leave the listing alone leaves it alone. -/
theorem bind_objects {α β : Type} (m : Op S3.Storer S3.Call α)
    (f : α → Op S3.Storer S3.Call β) (s : S3.Storer)
    (hm : (m s).state.objects = s.objects)
    (hf : ∀ v s', (f v s').state.objects = s'.objects) :
    (Op.bind m f s).state.objects = s.objects := by
  unfold Op.bind
  cases h : m s with
  | done v s' c =>
    rw [h] at hm
    simp only [state_prepend]
    rw [hf]
    exact hm
  | panic msg s' c =>
    rw [h] at hm
    exact hm

theorem headS3Key_objects (key : String) (s : S3.Storer) :
    (S3.Storer.headS3Key key s).state.objects = s.objects := by
  rcases headS3Key_cases key s with ⟨v, h⟩ | ⟨msg, h⟩ <;> rw [h] <;> rfl

theorem addAlias_objects (a : Alias) (s : S3.Storer) :
    (S3.Storer.addAlias a s).state.objects = s.objects := by
  unfold S3.Storer.addAlias
  rcases h : s.aliases.Add a with ⟨m, _ | msg⟩ <;> rfl

theorem getAliases_objects (objs : List S3.Object) (s : S3.Storer) :
    (S3.Storer.getAliases objs s).state.objects = s.objects := by
  induction objs generalizing s with
  | nil => rfl
  | cons o rest ih =>
    rw [S3.Storer.getAliases]
    by_cases hp : HasPrefix o.Key "alias-" = true
    · rw [if_pos hp]
      simp only [bind_eq]
      refine bind_objects _ _ s (headS3Key_objects _ s) (fun r s1 => ?_)
      cases r.1 with
      | none => rfl
      | some a => exact bind_objects _ _ s1 (addAlias_objects a s1) (fun _ s2 => ih s2)
    · rw [if_neg hp]
      exact ih s

theorem loadIndex_objects (recs : S3.IndexAliases) (s : S3.Storer) :
    (S3.Storer.loadIndex recs s).state.objects = s.objects := by
  induction recs generalizing s with
  | nil => rfl
  | cons a rest ih =>
    rw [S3.Storer.loadIndex]
    cases h : s.aliases with
    | none =>
      simp only [h]
      rfl
    | some l =>
      simp only [h]
      rw [ih]

theorem scanAll_objects (objs : List S3.Object) (s : S3.Storer) :
    (S3.Storer.scanAll objs s).state.objects = s.objects :=
  bind_objects _ _ s (getAliases_objects objs s) (fun _ _ => rfl)

/-- When the listing succeeds, whatever `Open` does next, the Storer it leaves behind
holds the sorted listing. -/
theorem open_objects (readOnly : Bool) (s : S3.Storer)
    (hlist : s.svc.ListObjectsV2Pages.2 = none) :
    (S3.Storer.Open readOnly s).state.objects =
      S3.sortReverse (s.objects ++ s.svc.ListObjectsV2Pages.1) := by
  rw [open_eq, hlist]
  simp only
  split
  · split
    · rfl
    · split
      · rfl
      · split
        · rw [state_prepend]
          refine (bind_objects _ _ _ (loadIndex_objects _ _) (fun _ s1 => ?_)).trans rfl
          rfl
        · rw [state_prepend, scanAll_objects]
          rfl
  · rw [state_prepend, scanAll_objects]
    rfl

theorem splitChars_ne_nil (c : Char) (xs : List Char) : splitChars c xs ≠ [] := by
  induction xs with
  | nil => simp [splitChars]
  | cons x xs ih =>
    unfold splitChars
    split
    · simp
    · split <;> simp

theorem splitChars_of_not_mem (c : Char) (xs : List Char) (h : c ∉ xs) :
    splitChars c xs = [xs] := by
  induction xs with
  | nil => rfl
  | cons x xs ih =>
    have hx : ¬ x = c := fun e => h (e ▸ List.mem_cons_self _ _)
    have hxs : c ∉ xs := fun m => h (List.mem_cons_of_mem _ m)
    rw [splitChars, if_neg hx, ih hxs]

theorem splitChars_append (c : Char) (xs ys : List Char) (h : c ∉ xs) :
    splitChars c (xs ++ c :: ys) = xs :: splitChars c ys := by
  induction xs with
  | nil => simp [splitChars]
  | cons x xs ih =>
    have hx : ¬ x = c := fun e => h (e ▸ List.mem_cons_self _ _)
    have hxs : c ∉ xs := fun m => h (List.mem_cons_of_mem _ m)
    rw [List.cons_append, splitChars, if_neg hx, ih hxs]

theorem splitComma_joinComma_cons (x : String) (rest : List String)
    (hc : ∀ y ∈ x :: rest, ',' ∉ y.toList) :
    splitComma (joinComma (x :: rest)) = x :: rest := by
  induction rest generalizing x with
  | nil =>
    have hx := hc x (List.mem_cons_self _ _)
    simp only [joinComma, splitComma, splitChars_of_not_mem _ _ hx, List.map_cons, List.map_nil]
    rfl
  | cons y r ih =>
    have hx := hc x (List.mem_cons_self _ _)
    have hr := ih y (fun z hz => hc z (List.mem_cons_of_mem _ hz))
    simp only [splitComma] at hr ⊢
    have hl : (joinComma (x :: y :: r)).toList = x.toList ++ ',' :: (joinComma (y :: r)).toList := by
      simp [joinComma, String.toList, String.data_append]
    rw [hl, splitChars_append _ _ _ hx, List.map_cons, hr]
    rfl

/-- Joining with commas and splitting at commas gives the list back, except that the
empty list comes back as the list of the empty string. -/
theorem splitComma_joinComma (l : List String) (hc : ∀ x ∈ l, ',' ∉ x.toList) :
    splitComma (joinComma l) = if l = [] then [""] else l := by
  cases l with
  | nil => rfl
  | cons x rest =>
    rw [if_neg (List.cons_ne_nil _ _)]
    exact splitComma_joinComma_cons x rest hc

/-- The collector on records with pairwise distinct keys, none of them in the map yet:
it returns, and the map holds each record under its key. -/
theorem assembleAliases_eq (l : Aliases) (s : S3.Storer) (m : AList (fun _ : String => Alias))
    (hs : s.aliases = some m) (hk : (l.map Alias.Key).Nodup) (hd : ∀ a ∈ l, a.Key ∉ m) :
    S3.Storer.assembleAliases (l.map some) s =
      .done () { s with aliases := some (l.foldl (fun m a => m.insert a.Key a) m) } [] := by
  induction l generalizing s m with
  | nil =>
    obtain ⟨ro, clk, al, ob, svc, lib, md⟩ := s
    simp only at hs
    subst hs
    rfl
  | cons a rest ih =>
    have hk' : (rest.map Alias.Key).Nodup := (List.nodup_cons.1 hk).2
    have ha : a.Key ∉ rest.map Alias.Key := (List.nodup_cons.1 hk).1
    have hd' : ∀ b ∈ rest, b.Key ∉ m.insert a.Key a := by
      intro b hb hmem
      rcases (AList.mem_insert m).1 hmem with h | h
      · exact ha (h ▸ List.mem_map_of_mem _ hb)
      · exact hd b (List.mem_cons_of_mem _ hb) h
    have hnone : m.lookup a.Key = none :=
      AList.lookup_eq_none.2 (hd a (List.mem_cons_self _ _))
    have hadd : S3.Storer.addAlias a s =
        .done () { s with aliases := some (m.insert a.Key a) } [] := by
      simp only [S3.Storer.addAlias, hs, AliasesMap.Add, hnone]
    rw [List.map_cons, S3.Storer.assembleAliases, bind_eq, opBind_of_done _ _ _ _ _ _ hadd,
      prepend_nil, ih _ (m.insert a.Key a) rfl hk' hd']
    rfl

/-! ## The claims -/

/-- C1: for collections with pairwise distinct keys, `s.Diff(s2)` holds exactly the records
`a` of `s` such that no record of `s2` has the key of `a` or the record of `s2` with that
key is not Equal to `a`; a record matched in `s2` by an Equal record with its key does not
appear; the result is in strictly ascending (Domain, Alias) order, and it is the only sorted
arrangement of its records; with `s2` empty it is a rearrangement of `s`. -/
theorem C1_diff_contents_and_order (s s2 : Aliases)
    (hs : (s.map Alias.Key).Nodup) (hs2 : (s2.map Alias.Key).Nodup) :
    (∀ a, a ∈ Aliases.Diff s s2 ↔
      a ∈ s ∧ ((∀ b ∈ s2, b.Key ≠ a.Key) ∨ (∃ b ∈ s2, b.Key = a.Key ∧ a.Equal b = false))) ∧
    (∀ a ∈ s, ∀ b ∈ s2, b.Key = a.Key → a.Equal b = true → a ∉ Aliases.Diff s s2) ∧
    (Aliases.Diff s s2).Pairwise Before ∧
    (∀ r : Aliases, r.Perm (Aliases.Diff s s2) → r.Pairwise NotAfter →
      r = Aliases.Diff s s2) ∧
    (s2 = [] → (Aliases.Diff s s2).Perm s) := by
  have hmem : ∀ a, a ∈ Aliases.Diff s s2 ↔
      a ∈ s ∧ ((∀ b ∈ s2, b.Key ≠ a.Key) ∨
        (∃ b ∈ s2, b.Key = a.Key ∧ a.Equal b = false)) := by
    intro a
    rw [diff_eq_sort_filter s s2 hs, (sortAliases_perm _).mem_iff, List.mem_filter,
      List.mem_reverse, keeps_iff s2 hs2]
  have hfk : ((s.reverse.filter (fun a => keeps (Aliases.ToMap s2) (a.Key, a))).map
      Alias.Key).Nodup := by
    have hsub : (s.reverse.filter (fun a => keeps (Aliases.ToMap s2) (a.Key, a))).Sublist
        s.reverse := List.filter_sublist _
    have hrev : (s.reverse.map Alias.Key).Nodup := by
      rw [List.map_reverse]
      exact List.nodup_reverse.2 hs
    exact hrev.sublist (hsub.map Alias.Key)
  refine ⟨hmem, ?_, ?_, ?_, ?_⟩
  · intro a _ b hb hk he hin
    rcases ((hmem a).1 hin).2 with h | ⟨b', hb', hk', he'⟩
    · exact h b hb hk
    · have h1 := (toMap_get_eq_some s2 hs2 a.Key b).2 ⟨hb, hk⟩
      have h2 := (toMap_get_eq_some s2 hs2 a.Key b').2 ⟨hb', hk'⟩
      rw [h1] at h2
      cases h2
      rw [he] at he'
      exact Bool.noConfusion he'
  · rw [diff_eq_sort_filter s s2 hs]
    exact sortAliases_strict _ hfk
  · intro r hr hsorted
    rw [diff_eq_sort_filter s s2 hs] at hr ⊢
    exact sorted_arrangement_unique r _ hr
      (((sortAliases_perm _).map Alias.Key).nodup_iff.2 hfk) hsorted (sortAliases_sorted _)
  · intro he
    subst he
    rw [diff_eq_sort_filter s [] hs]
    refine (sortAliases_perm _).trans ?_
    have : s.reverse.filter (fun a => keeps (Aliases.ToMap []) (a.Key, a)) = s.reverse := by
      apply List.filter_eq_self.2
      intro a _
      rfl
    rw [this]
    exact List.reverse_perm s

/-- C1, witness: the two collections of the repository's Diff test (case 3). -/
theorem C1_diff_contents_and_order_witness :
    (testDiffS1.map Alias.Key).Nodup ∧ (testDiffS2.map Alias.Key).Nodup ∧
    (Aliases.Diff testDiffS1 testDiffS2).Pairwise Before :=
  ⟨by decide, by decide,
    (C1_diff_contents_and_order testDiffS1 testDiffS2 (by decide) (by decide)).2.2.1⟩

/-- C2: `a.Equal(b)` is true exactly when Alias, Domain, Description and Suspended are
identical, the three timestamps denote the same instants to the nanosecond and the address
lists are the same sequence; an identical copy is Equal, and a copy that differs in exactly
one field (for a timestamp: in its instant) is not. -/
theorem C2_equal_iff_all_fields_match (a b : Alias) :
    (a.Equal b = true ↔
      a.Alias = b.Alias ∧ a.Domain = b.Domain ∧ a.Description = b.Description ∧
      a.Suspended = b.Suspended ∧
      a.CreatedTS.SameInstant b.CreatedTS ∧ a.ModifiedTS.SameInstant b.ModifiedTS ∧
      a.SuspendedTS.SameInstant b.SuspendedTS ∧
      a.EmailAddresses = b.EmailAddresses) ∧
    a.Equal a = true ∧
    (∀ v, v ≠ a.Alias → a.Equal { a with Alias := v } = false) ∧
    (∀ v, v ≠ a.Domain → a.Equal { a with Domain := v } = false) ∧
    (∀ v, v ≠ a.EmailAddresses → a.Equal { a with EmailAddresses := v } = false) ∧
    (∀ v, v ≠ a.Description → a.Equal { a with Description := v } = false) ∧
    (∀ v, v ≠ a.Suspended → a.Equal { a with Suspended := v } = false) ∧
    (∀ t, ¬ a.CreatedTS.SameInstant t → a.Equal { a with CreatedTS := t } = false) ∧
    (∀ t, ¬ a.ModifiedTS.SameInstant t → a.Equal { a with ModifiedTS := t } = false) ∧
    (∀ t, ¬ a.SuspendedTS.SameInstant t → a.Equal { a with SuspendedTS := t } = false) := by
  refine ⟨alias_equal_iff a b, alias_equal_refl a, ?_, ?_, ?_, ?_, ?_, ?_, ?_, ?_⟩ <;>
    intro v hv <;> rw [← Bool.not_eq_true, alias_equal_iff] <;>
    simp [Time.SameInstant] at hv ⊢ <;> first | exact fun h => absurd h.symm hv | tauto

/-- C2, witness: the stripped test record against itself, and against a copy with another
description. -/
theorem C2_equal_iff_all_fields_match_witness :
    testStripIn.Equal testStripIn = true ∧
    testStripIn.Equal { testStripIn with Description := "another" } = false :=
  ⟨(C2_equal_iff_all_fields_match testStripIn testStripIn).2.1,
    (C2_equal_iff_all_fields_match testStripIn testStripIn).2.2.2.2.2.1 "another"
      (by decide)⟩

/-- C3: with `matchAny = false` a record passes exactly when every configured pattern
matches its field (the address pattern: at least one of the addresses) and neither exclusion
applies; a filter with only a domain pattern accepts exactly the records whose domain
matches, and the empty filter accepts every record. -/
theorem C3_filter_all_patterns (a : Alias) (f : Filter) :
    (a.Filter f false = true ↔
      (∀ r, f.Alias = some r → r.MatchString a.Alias = true) ∧
      (∀ r, f.Domain = some r → r.MatchString a.Domain = true) ∧
      (∀ r, f.EmailAddress = some r → ∃ e ∈ a.EmailAddresses, r.MatchString e = true) ∧
      (∀ r, f.Description = some r → r.MatchString a.Description = true) ∧
      ¬ (f.ExcludeSuspended = true ∧ a.Suspended = true) ∧
      ¬ (f.ExcludeEnabled = true ∧ a.Suspended = false)) ∧
    (∀ r : Regexp, a.Filter ⟨none, some r, none, none, false, false⟩ false
      = r.MatchString a.Domain) ∧
    a.Filter Filter.zero false = true := by
  refine ⟨?_, ?_, ?_⟩
  · obtain ⟨fa, fd, fe, fdesc, xs, xe⟩ := f
    cases fa <;> cases fd <;> cases fe <;> cases fdesc <;> cases xs <;> cases xe <;>
      cases hs : a.Suspended <;>
      simp [Alias.Filter, foldl_or_eq_any, hs, and_assoc]
  · intro r
    cases h : r.MatchString a.Domain <;> simp [Alias.Filter, h]
  · simp [Alias.Filter, Filter.zero]

/-- C4: with `matchAny = true` the result is (alias-ok or domain-ok or address-ok or
description-ok) and not excluded as suspended and not excluded as enabled, where a pattern
that is unset counts as ok; so a record that some pattern matches and that passes both
exclusions is accepted, and an excluded record is rejected whatever the patterns match. -/
theorem C4_filter_any_pattern (a : Alias) (f : Filter) :
    a.Filter f true =
      ((f.Alias.all (fun r => r.MatchString a.Alias) ||
        f.Domain.all (fun r => r.MatchString a.Domain) ||
        f.EmailAddress.all (fun r => a.EmailAddresses.any r.MatchString) ||
        f.Description.all (fun r => r.MatchString a.Description)) &&
       !(f.ExcludeSuspended && a.Suspended) && !(f.ExcludeEnabled && !a.Suspended)) ∧
    (((∃ r, f.Alias = some r ∧ r.MatchString a.Alias = true) ∨
      (∃ r, f.Domain = some r ∧ r.MatchString a.Domain = true) ∨
      (∃ r, f.EmailAddress = some r ∧ ∃ e ∈ a.EmailAddresses, r.MatchString e = true) ∨
      (∃ r, f.Description = some r ∧ r.MatchString a.Description = true)) →
      ¬ (f.ExcludeSuspended = true ∧ a.Suspended = true) →
      ¬ (f.ExcludeEnabled = true ∧ a.Suspended = false) →
      a.Filter f true = true) ∧
    (f.ExcludeSuspended = true ∧ a.Suspended = true → a.Filter f true = false) ∧
    (f.ExcludeEnabled = true ∧ a.Suspended = false → a.Filter f true = false) := by
  have key : a.Filter f true =
      ((f.Alias.all (fun r => r.MatchString a.Alias) ||
        f.Domain.all (fun r => r.MatchString a.Domain) ||
        f.EmailAddress.all (fun r => a.EmailAddresses.any r.MatchString) ||
        f.Description.all (fun r => r.MatchString a.Description)) &&
       !(f.ExcludeSuspended && a.Suspended) && !(f.ExcludeEnabled && !a.Suspended)) := by
    obtain ⟨fa, fd, fe, fdesc, xs, xe⟩ := f
    cases fa <;> cases fd <;> cases fe <;> cases fdesc <;> cases xs <;> cases xe <;>
      cases hs : a.Suspended <;>
      simp [Alias.Filter, foldl_or_eq_any, hs]
  refine ⟨key, ?_, ?_, ?_⟩
  · intro hm hs he
    rw [key]
    have h1 : (f.ExcludeSuspended && a.Suspended) = false := by
      cases h : f.ExcludeSuspended <;> cases h' : a.Suspended <;> simp_all
    have h2 : (f.ExcludeEnabled && !a.Suspended) = false := by
      cases h : f.ExcludeEnabled <;> cases h' : a.Suspended <;> simp_all
    simp only [h1, h2, Bool.not_false, Bool.and_true]
    rcases hm with ⟨r, hr, hm⟩ | ⟨r, hr, hm⟩ | ⟨r, hr, e, he, hm⟩ | ⟨r, hr, hm⟩
    · simp [hr, hm]
    · simp [hr, hm]
    · have : a.EmailAddresses.any r.MatchString = true := List.any_eq_true.2 ⟨e, he, hm⟩
      simp [hr, this]
    · simp [hr, hm]
  · rintro ⟨h1, h2⟩
    rw [key]; simp [h1, h2]
  · rintro ⟨h1, h2⟩
    rw [key]; simp [h1, h2]

/-- C4, witness: the "match any field" case of the repository's filter test: only the
address pattern matches, and the record is accepted. -/
theorem C4_filter_any_pattern_witness :
    Alias.Filter
      ⟨"missing search term", "missing search term", ["search term"], "missing search term",
        false, Time.zero, Time.zero, Time.zero⟩
      ⟨some testSearchTerm, some testSearchTerm, some testSearchTerm, some testSearchTerm,
        false, false⟩ true = true :=
  (C4_filter_any_pattern _ _).2.1
    (Or.inr (Or.inr (Or.inl ⟨testSearchTerm, rfl, "search term", by decide, by decide⟩)))
    (by decide) (by decide)

/-- C5: on a non-nil map, `Add` of a record whose key is already present panics and leaves
the map as it was; `Add` of a record whose key is absent returns normally, after which the
entry under the key is the record and every other entry is unchanged. On the nil map `Add`
does nothing and does not panic. -/
theorem C5_add_faults_on_existing_key (m : AliasesMap) (a : Alias) :
    (m ≠ none → m.get a.Key ≠ none →
      (m.Add a).2.isSome = true ∧ (m.Add a).1 = m) ∧
    (m ≠ none → m.get a.Key = none →
      (m.Add a).2 = none ∧ (m.Add a).1 ≠ none ∧ (m.Add a).1.get a.Key = some a ∧
      ∀ k, k ≠ a.Key → (m.Add a).1.get k = m.get k) ∧
    AliasesMap.Add none a = (none, none) := by
  refine ⟨?_, ?_, rfl⟩
  · intro hm hk
    cases m with
    | none => exact absurd rfl hm
    | some l =>
      simp only [AliasesMap.get] at hk
      cases hl : l.lookup a.Key with
      | none => exact absurd hl hk
      | some b => simp [AliasesMap.Add, hl]
  · intro hm hk
    cases m with
    | none => exact absurd rfl hm
    | some l =>
      simp only [AliasesMap.get] at hk
      simp only [AliasesMap.Add, hk, AliasesMap.get]
      exact ⟨trivial, by simp, AList.lookup_insert l, fun k hne => AList.lookup_insert_ne hne⟩

/-- C5, witness: cases 2 and 3 of the repository's Add test: adding `foo@bar.com` to a map
that holds it panics and keeps the map; adding it to the empty map stores it. -/
theorem C5_add_faults_on_existing_key_witness :
    (((Aliases.ToMap [testAddAlias]).Add testAddAlias).2.isSome = true ∧
      ((Aliases.ToMap [testAddAlias]).Add testAddAlias).1 = Aliases.ToMap [testAddAlias]) ∧
    ((Aliases.ToMap []).Add testAddAlias).2 = none ∧
    ((Aliases.ToMap []).Add testAddAlias).1.get "foo@bar.com" = some testAddAlias :=
  ⟨(C5_add_faults_on_existing_key (Aliases.ToMap [testAddAlias]) testAddAlias).1
      (Option.some_ne_none _) (by decide),
    ((C5_add_faults_on_existing_key (Aliases.ToMap []) testAddAlias).2.1
      (Option.some_ne_none _) (by decide)).1,
    ((C5_add_faults_on_existing_key (Aliases.ToMap []) testAddAlias).2.1
      (Option.some_ne_none _) (by decide)).2.2.1⟩

/-- C6, the code at two records with the same key `foo@bar.com`: `ToMap` returns a map
whose only entry is the second record; the first one is dropped and nothing signals it. -/
theorem C6_toMap_keeps_last_of_equal_keys :
    (⟨"foo", "bar.com", [], "first", false, Time.zero, Time.zero, Time.zero⟩ : Alias).Key
      = (⟨"foo", "bar.com", [], "second", false, Time.zero, Time.zero, Time.zero⟩ : Alias).Key ∧
    (Aliases.ToMap
      [⟨"foo", "bar.com", [], "first", false, Time.zero, Time.zero, Time.zero⟩,
       ⟨"foo", "bar.com", [], "second", false, Time.zero, Time.zero, Time.zero⟩]).range
      = [("foo@bar.com",
          ⟨"foo", "bar.com", [], "second", false, Time.zero, Time.zero, Time.zero⟩)] := by
  decide

/-- C7 (as amended): on records whose aliases contain no `@`, or whose domains contain no
`@`, `Key` is injective on (alias, domain): equal keys force equal Alias and equal Domain. -/
theorem C7_key_injective_without_at (a b : Alias)
    (h : ('@' ∉ a.Alias.toList ∧ '@' ∉ b.Alias.toList) ∨
         ('@' ∉ a.Domain.toList ∧ '@' ∉ b.Domain.toList))
    (hk : a.Key = b.Key) : a.Alias = b.Alias ∧ a.Domain = b.Domain := by
  have hl : a.Alias.toList ++ '@' :: a.Domain.toList
      = b.Alias.toList ++ '@' :: b.Domain.toList := by
    rw [← key_toList, ← key_toList, hk]
  have : a.Alias.toList = b.Alias.toList ∧ a.Domain.toList = b.Domain.toList := by
    rcases h with ⟨h₁, h₂⟩ | ⟨h₁, h₂⟩
    · exact append_cons_inj_left _ _ _ _ _ h₁ h₂ hl
    · exact append_cons_inj_right _ _ _ _ _ h₁ h₂ hl
  exact ⟨String.ext this.1, String.ext this.2⟩

/-- C7, witness: two records `foo@bar.com` that differ in description and suspension. -/
theorem C7_key_injective_without_at_witness :
    ('@' ∉ "bar.com".toList) ∧
    (⟨"foo", "bar.com", [], "one", false, Time.zero, Time.zero, Time.zero⟩ : Alias).Key
      = (⟨"foo", "bar.com", [], "two", true, Time.zero, Time.zero, Time.zero⟩ : Alias).Key ∧
    (⟨"foo", "bar.com", [], "one", false, Time.zero, Time.zero, Time.zero⟩ : Alias).Alias
      = (⟨"foo", "bar.com", [], "two", true, Time.zero, Time.zero, Time.zero⟩ : Alias).Alias ∧
    (⟨"foo", "bar.com", [], "one", false, Time.zero, Time.zero, Time.zero⟩ : Alias).Domain
      = (⟨"foo", "bar.com", [], "two", true, Time.zero, Time.zero, Time.zero⟩ : Alias).Domain :=
  ⟨by decide, by decide,
    C7_key_injective_without_at _ _ (Or.inr ⟨by decide, by decide⟩) (by decide)⟩

/-- C7, counterexample: alias `a@b` in domain `c` and alias `a` in domain `b@c` have the
same key `a@b@c`, so `Key` is not injective on all records. -/
theorem C7_key_not_injective :
    (⟨"a@b", "c", [], "", false, Time.zero, Time.zero, Time.zero⟩ : Alias).Key
      = (⟨"a", "b@c", [], "", false, Time.zero, Time.zero, Time.zero⟩ : Alias).Key ∧
    ¬ ((⟨"a@b", "c", [], "", false, Time.zero, Time.zero, Time.zero⟩ : Alias).Alias
        = (⟨"a", "b@c", [], "", false, Time.zero, Time.zero, Time.zero⟩ : Alias).Alias ∧
       (⟨"a@b", "c", [], "", false, Time.zero, Time.zero, Time.zero⟩ : Alias).Domain
        = (⟨"a", "b@c", [], "", false, Time.zero, Time.zero, Time.zero⟩ : Alias).Domain) := by
  decide

/-- C8: when every name is a field of Alias, `StripData` returns no error and the record
with the named fields of `a` and the zero value in every other field; when some name is not
a field, it returns an error and the all-zero Alias. (The receiver is passed by value: the
call has no access to the caller's record.) -/
theorem C8_stripData_projects (a : Alias) (names : List String) :
    ((∀ n ∈ names, n ∈ Alias.Fields) →
      (a.StripData names).2 = none ∧
      (a.StripData names).1 =
        { Alias := if "Alias" ∈ names then a.Alias else ""
          Domain := if "Domain" ∈ names then a.Domain else ""
          EmailAddresses := if "EmailAddresses" ∈ names then a.EmailAddresses else []
          Description := if "Description" ∈ names then a.Description else ""
          Suspended := if "Suspended" ∈ names then a.Suspended else false
          CreatedTS := if "CreatedTS" ∈ names then a.CreatedTS else Time.zero
          ModifiedTS := if "ModifiedTS" ∈ names then a.ModifiedTS else Time.zero
          SuspendedTS := if "SuspendedTS" ∈ names then a.SuspendedTS else Time.zero }) ∧
    ((∃ n ∈ names, n ∉ Alias.Fields) →
      (a.StripData names).2.isSome = true ∧ (a.StripData names).1 = Alias.zero) := by
  constructor
  · intro h
    rw [Alias.StripData, stripLoop_of_fields a names _ h]
    exact ⟨rfl, rfl⟩
  · intro h
    obtain ⟨n, -, -, heq⟩ := stripLoop_of_unknown a names Alias.zero h
    rw [Alias.StripData, heq]
    exact ⟨rfl, rfl⟩

/-- C8, witness: the repository's StripData test (names Alias, Domain, EmailAddresses), and
the same record with the unknown name `alias`. -/
theorem C8_stripData_projects_witness :
    ((testStripIn.StripData ["Alias", "Domain", "EmailAddresses"]).2 = none ∧
      (testStripIn.StripData ["Alias", "Domain", "EmailAddresses"]).1 =
        ⟨"foo", "bar.com", ["bar@baz.com"], "", false, Time.zero, Time.zero, Time.zero⟩) ∧
    ((testStripIn.StripData ["Domain", "alias"]).2.isSome = true ∧
      (testStripIn.StripData ["Domain", "alias"]).1 = Alias.zero) :=
  ⟨(C8_stripData_projects testStripIn ["Alias", "Domain", "EmailAddresses"]).1 (by decide),
    (C8_stripData_projects testStripIn ["Domain", "alias"]).2 ⟨"alias", by decide, by decide⟩⟩

/-- C9 (as amended): on a collection with at least one record, a name list that contains a
name which is not an Alias field makes `Aliases.StripData` fail with an error and return
the nil collection; on the empty collection it returns the empty collection and no error,
whatever the names. -/
theorem C9_stripData_unknown_field_nonempty (s : Aliases) (names : List String)
    (hs : s ≠ []) (h : ∃ n ∈ names, n ∉ Alias.Fields) :
    ((Aliases.StripData s names).1 = none ∧ (Aliases.StripData s names).2.isSome = true) ∧
    Aliases.StripData [] names = (some [], none) := by
  refine ⟨?_, rfl⟩
  cases s with
  | nil => exact absurd rfl hs
  | cons a rest => exact stripDataLoop_of_unknown names h [] a rest

/-- C9, witness: one record and the names `Alias`, `bogus`. -/
theorem C9_stripData_unknown_field_nonempty_witness :
    ((Aliases.StripData [Alias.zero] ["Alias", "bogus"]).1 = none ∧
      (Aliases.StripData [Alias.zero] ["Alias", "bogus"]).2.isSome = true) ∧
    Aliases.StripData [] ["Alias", "bogus"] = (some [], none) :=
  C9_stripData_unknown_field_nonempty [Alias.zero] ["Alias", "bogus"] (by decide)
    ⟨"bogus", by decide, by decide⟩

/-- C9, counterexample: on the empty collection the unknown name `bogus` is accepted:
no error, and the (empty) stripped collection is returned. -/
theorem C9_stripData_unknown_field_empty_accepted :
    (∃ n ∈ ["bogus"], n ∉ Alias.Fields) ∧
    ¬ ((Aliases.StripData [] ["bogus"]).1 = none ∧
       (Aliases.StripData [] ["bogus"]).2.isSome = true) := by
  decide

/-- C10: for a collection with pairwise distinct keys, `s.ToMap().ToSlice()` is a
rearrangement of `s` (every record once, unaltered) in strictly ascending (Domain, Alias)
order, Domain compared first and Alias breaking ties; it is the only sorted arrangement of
`s`, whatever order the map is iterated in. -/
theorem C10_toMap_toSlice_sorted_roundtrip (s : Aliases) (hs : (s.map Alias.Key).Nodup) :
    (AliasesMap.ToSlice (Aliases.ToMap s)).Perm s ∧
    (AliasesMap.ToSlice (Aliases.ToMap s)).Pairwise Before ∧
    (∀ r : Aliases, r.Perm s → r.Pairwise NotAfter →
      r = AliasesMap.ToSlice (Aliases.ToMap s)) := by
  have hr : (Aliases.ToMap s).range.map (fun e => e.2) = s.reverse := by
    rw [toMap_range s hs, List.map_map]
    simp [Function.comp_def]
  have hk : (s.reverse.map Alias.Key).Nodup := by
    rw [List.map_reverse]
    exact List.nodup_reverse.2 hs
  have hp : (sortAliases s.reverse).Perm s := (sortAliases_perm _).trans (List.reverse_perm s)
  unfold AliasesMap.ToSlice
  rw [hr]
  refine ⟨hp, sortAliases_strict _ hk, ?_⟩
  intro r hrp hsorted
  exact sorted_arrangement_unique r _ (hrp.trans hp.symm)
    (((sortAliases_perm _).map Alias.Key).nodup_iff.2 hk) hsorted (sortAliases_sorted _)

/-- C10, witness: the collection of the repository's sort test (case 3). -/
theorem C10_toMap_toSlice_sorted_roundtrip_witness :
    (testSortIn.map Alias.Key).Nodup ∧
    (AliasesMap.ToSlice (Aliases.ToMap testSortIn)).Perm testSortIn ∧
    (AliasesMap.ToSlice (Aliases.ToMap testSortIn)).Pairwise Before :=
  ⟨by decide, (C10_toMap_toSlice_sorted_roundtrip testSortIn (by decide)).1,
    (C10_toMap_toSlice_sorted_roundtrip testSortIn (by decide)).2.1⟩

/-- C11: `m.Del(a)` removes the entry stored under `a.Key()` and leaves every other entry
unchanged; when the map has no entry under that key it is left as it is, and on the nil
map `Del` does nothing. `Del` has no path on which it panics. -/
theorem C11_del_removes_only_its_key (m : AliasesMap) (a : Alias) :
    (m.Del a).get a.Key = none ∧
    (∀ k, k ≠ a.Key → (m.Del a).get k = m.get k) ∧
    (m.get a.Key = none → m.Del a = m) ∧
    AliasesMap.Del none a = none := by
  cases m with
  | none => simp [AliasesMap.Del, AliasesMap.get]
  | some l =>
    cases hl : l.lookup a.Key with
    | none => simp [AliasesMap.Del, AliasesMap.get, hl]
    | some b =>
      refine ⟨?_, ?_, ?_, rfl⟩
      · simp [AliasesMap.Del, AliasesMap.get, hl]
      · intro k hk
        simp only [AliasesMap.Del, AliasesMap.get, hl]
        exact AList.lookup_erase_ne hk
      · intro h
        simp [AliasesMap.get, hl] at h

/-- C11, witness: cases 2 and 3 of the repository's Del test: deleting `foo@bar.com` from
a map that only holds another key changes nothing, deleting it from a map that holds it
leaves no entry under the key. -/
theorem C11_del_removes_only_its_key_witness :
    (Aliases.ToMap [testDelHeld]).Del testAddAlias = Aliases.ToMap [testDelHeld] ∧
    ((Aliases.ToMap [testAddAlias]).Del testAddAlias).get "foo@bar.com" = none :=
  ⟨(C11_del_removes_only_its_key (Aliases.ToMap [testDelHeld]) testAddAlias).2.2.1
      (by decide),
    (C11_del_removes_only_its_key (Aliases.ToMap [testAddAlias]) testAddAlias).1⟩

/-- C12: for every collection `A`, duplicates of keys included, `A.Diff(A)` is empty. -/
theorem C12_diff_self_empty (A : Aliases) : Aliases.Diff A A = [] := by
  simp only [Aliases.Diff]
  rw [diff_foldl]
  have h : (Aliases.ToMap A).range.filter (keeps (Aliases.ToMap A)) = [] := by
    rw [List.filter_eq_nil_iff]
    intro e he
    simp [keeps, range_get _ e he, alias_equal_refl]
  rw [h]
  rfl

/-- C13: when the listing succeeds, the sorted listing has an `alias-` key, a key named
`index` precedes every `alias-` key and the index decodes to as many records as there are
`alias-` keys, `Open` stores the records of the index in the alias map, records the ETag
and sends no HEAD request (only the listing and the GET of the index). In every other case
in which `Open` returns nil it leaves the Storer as the full scan leaves it, having sent one
HEAD request for every `alias-` key of the listing. -/
theorem C13_open_uses_index_iff_trusted (readOnly : Bool) (s : S3.Storer) :
    (∀ l body etag recs, s.aliases = some l → s.svc.ListObjectsV2Pages.2 = none →
      S3.aliasKeys (s.listed readOnly).objects ≠ [] →
      S3.IndexPrecedesAliases (s.listed readOnly).objects →
      s.svc.GetObject "index" = .ok (body, etag) →
      s.lib.decodeIndex body = .ok recs →
      recs.length = (S3.aliasKeys (s.listed readOnly).objects).length →
      S3.Storer.Open readOnly s =
        .done none
          { s.listed readOnly with
            aliases := some (recs.foldl
              (fun l a => l.insert (S3.keyIndex a.Alias a.Domain) a.ToAlias) l)
            indexMD5 := trimQuotes etag }
          [S3.Call.listObjects, S3.Call.getObject "index"]) ∧
    (∀ s' calls, S3.Storer.Open readOnly s = .done none s' calls →
      ¬ s.IndexTrusted readOnly →
      S3.Storer.getAliases (s.listed readOnly).objects (s.listed readOnly) =
        .done () s' ((S3.aliasKeys (s.listed readOnly).objects).map S3.Call.headObject) ∧
      (calls = S3.Call.listObjects ::
          (S3.aliasKeys (s.listed readOnly).objects).map S3.Call.headObject ∨
       calls = S3.Call.listObjects :: S3.Call.getObject "index" ::
          (S3.aliasKeys (s.listed readOnly).objects).map S3.Call.headObject)) := by
  constructor
  · intro l body etag recs hl hlist hkeys hidx hget hdec hlen
    exact open_trusted_eq readOnly s l body etag recs hl hlist hkeys hidx hget hdec hlen
  · intro s' calls hopen hnot
    rw [open_eq] at hopen
    cases hlist : s.svc.ListObjectsV2Pages.2 with
    | some err => simp [hlist] at hopen
    | none =>
      simp only [hlist] at hopen
      by_cases hflag : (decide ((S3.indexBeforeAliasCount (s.listed readOnly).objects).2 > 0) &&
          (S3.indexBeforeAliasCount (s.listed readOnly).objects).1) = true
      · rw [if_pos hflag] at hopen
        cases hget : s.svc.GetObject "index" with
        | error err => simp [hget] at hopen
        | ok r =>
          obtain ⟨body, etag⟩ := r
          simp only [hget] at hopen
          cases hdec : s.lib.decodeIndex body with
          | error err => simp [hdec] at hopen
          | ok recs =>
            simp only [hdec] at hopen
            by_cases hlen : recs.length = (S3.indexBeforeAliasCount (s.listed readOnly).objects).2
            · exfalso
              apply hnot
              obtain ⟨h1, h2⟩ := (open_flag_iff _).1 hflag
              refine ⟨h1, h2, body, etag, recs, hget, hdec, ?_⟩
              rw [hlen, indexBeforeAliasCount_eq]
            · rw [if_neg hlen] at hopen
              obtain ⟨c', hscan, hc⟩ := prepend_eq_done _ _ _ _ _ hopen
              obtain ⟨hga, -⟩ := scanAll_done _ _ _ _ _ hscan
              have hcalls := getAliases_done_calls _ _ _ _ hga
              subst hcalls
              exact ⟨hga, Or.inr hc⟩
      · rw [if_neg hflag] at hopen
        obtain ⟨c', hscan, hc⟩ := prepend_eq_done _ _ _ _ _ hopen
        obtain ⟨hga, -⟩ := scanAll_done _ _ _ _ _ hscan
        have hcalls := getAliases_done_calls _ _ _ _ hga
        subst hcalls
        exact ⟨hga, Or.inl hc⟩

/-- C13, witness: a bucket whose index is newer than its one alias object and lists one
record: `Open` takes the record from the index and sends the listing and the GET only. -/
theorem C13_open_uses_index_iff_trusted_witness :
    (S3.Storer.Open false
      (testStorer false (testBucket testT1 "[foo@bar.com]" (.ok testMetadata)))).calls
      = [S3.Call.listObjects, S3.Call.getObject "index"] ∧
    (S3.Storer.Open false
      (testStorer false (testBucket testT1 "[foo@bar.com]" (.ok testMetadata)))).state.aliases.range
      = [("foo@bar.com", testIndexRecord.ToAlias)] := by
  have h := (C13_open_uses_index_iff_trusted false
    (testStorer false (testBucket testT1 "[foo@bar.com]" (.ok testMetadata)))).1
    ∅ "[foo@bar.com]" "\"0123\"" [testIndexRecord] rfl rfl (by decide)
    ⟨[⟨"index", testT2⟩], [⟨"alias-foo@bar.com", testT1⟩], by decide,
      ⟨_, List.mem_singleton.2 rfl, rfl⟩, by decide⟩
    rfl rfl (by decide)
  rw [h]
  exact ⟨rfl, by decide⟩

/-- C14, the code on a bucket whose one alias object is newer than the index (so that the
full scan runs) and whose HEAD fails, with `NotFound` or with another error: `headS3Key`
returns the nil pointer, the collector dereferences it, and `Open` ends in a panic after
the listing and the HEAD, instead of returning without the record. -/
theorem C14_failed_head_panics_full_scan :
    ((S3.Storer.Open false (testStorer false (testBucket ⟨63135810181, 0, 0⟩ "[foo@bar.com]"
        (.error ⟨some "NotFound", "Not Found"⟩)))).value = none ∧
     (S3.Storer.Open false (testStorer false (testBucket ⟨63135810181, 0, 0⟩ "[foo@bar.com]"
        (.error ⟨some "NotFound", "Not Found"⟩)))).calls
        = [S3.Call.listObjects, S3.Call.headObject "alias-foo@bar.com"]) ∧
    ((S3.Storer.Open false (testStorer false (testBucket ⟨63135810181, 0, 0⟩ "[foo@bar.com]"
        (.error ⟨none, "connection reset by peer"⟩)))).value = none ∧
     (S3.Storer.Open false (testStorer false (testBucket ⟨63135810181, 0, 0⟩ "[foo@bar.com]"
        (.error ⟨none, "connection reset by peer"⟩)))).calls
        = [S3.Call.listObjects, S3.Call.headObject "alias-foo@bar.com"]) := by
  decide

/-- C15 (as amended): when the listing succeeds, the sorted listing has at least one
`alias-` key and `index` precedes all of them, the GET of `index` succeeds, but the body
of the index cannot be decoded, `Open` returns the decoding error: it sends no HEAD
request and leaves the alias map as it was. (Without an `alias-` key `Open` does not
fetch the index at all.) -/
theorem C15_open_returns_decode_error (readOnly : Bool) (s : S3.Storer)
    (body etag : String) (err : Err)
    (hlist : s.svc.ListObjectsV2Pages.2 = none)
    (hkeys : S3.aliasKeys (s.listed readOnly).objects ≠ [])
    (hidx : S3.IndexPrecedesAliases (s.listed readOnly).objects)
    (hget : s.svc.GetObject "index" = .ok (body, etag))
    (hdec : s.lib.decodeIndex body = .error err) :
    S3.Storer.Open readOnly s =
      .done (some err) (s.listed readOnly) [S3.Call.listObjects, S3.Call.getObject "index"] ∧
    (s.listed readOnly).aliases = s.aliases := by
  refine ⟨?_, rfl⟩
  rw [open_eq]
  simp only [hlist]
  rw [if_pos ((open_flag_iff _).2 ⟨hkeys, hidx⟩)]
  simp only [hget, hdec]

/-- C15, witness: the bucket of the tests with an index body that does not decode. -/
theorem C15_open_returns_decode_error_witness :
    S3.Storer.Open false (testStorer false (testBucket testT1 "garbage" (.ok testMetadata))) =
      .done (some (Err.new "invalid character"))
        ((testStorer false (testBucket testT1 "garbage" (.ok testMetadata))).listed false)
        [S3.Call.listObjects, S3.Call.getObject "index"] ∧
    ((testStorer false (testBucket testT1 "garbage" (.ok testMetadata))).listed false).aliases
      = some ∅ :=
  C15_open_returns_decode_error false
    (testStorer false (testBucket testT1 "garbage" (.ok testMetadata)))
    "garbage" "\"0123\"" (Err.new "invalid character") rfl (by decide)
    ⟨[⟨"index", testT2⟩], [⟨"alias-foo@bar.com", testT1⟩], by decide,
      ⟨_, List.mem_singleton.2 rfl, rfl⟩, by decide⟩
    rfl rfl

/-- C15, counterexample: with an index that precedes the alias object and does not decode,
`Open` does not succeed with the scanned record: it returns an error, has sent no HEAD
request, and the alias map is empty. -/
theorem C15_decode_failure_fails_open :
    (S3.Storer.Open false
      (testStorer false (testBucket testT1 "garbage" (.ok testMetadata)))).value
      = some (some (Err.new "invalid character")) ∧
    (S3.Storer.Open false
      (testStorer false (testBucket testT1 "garbage" (.ok testMetadata)))).calls
      = [S3.Call.listObjects, S3.Call.getObject "index"] ∧
    (S3.Storer.Open false
      (testStorer false (testBucket testT1 "garbage" (.ok testMetadata)))).state.aliases.range
      = [] := by
  decide

/-- C16: `Close` serializes the records of the alias map in ascending (Domain, Alias)
order, each converted by `FromAlias`; when the digest of the serialization equals the
checksum recorded at `Open` it sends no request and returns nil; otherwise it sends one
PUT of the object `index` with the serialization as body and returns what the PUT
returns. The Storer is left as it was. -/
theorem C16_close_writes_index_iff_changed (s : S3.Storer) :
    (sortAliases s.aliases.ToSlice).Pairwise NotAfter ∧
    (sortAliases s.aliases.ToSlice).Perm (s.aliases.range.map (fun e => e.2)) ∧
    (∀ b, s.lib.marshalIndex (S3.toIndexAliases (sortAliases s.aliases.ToSlice)) = .ok b →
      s.indexBody = b) ∧
    (s.lib.md5hex s.indexBody = s.indexMD5 → S3.Storer.Close s = .done none s []) ∧
    (s.lib.md5hex s.indexBody ≠ s.indexMD5 →
      S3.Storer.Close s =
        .done
          (s.svc.PutObject
            { Key := "index"
              Body := s.indexBody
              Metadata := [("creation_ts", s.lib.formatRFC3339 s.clock.Now.UTC)] })
          s
          [S3.Call.putObject
            { Key := "index"
              Body := s.indexBody
              Metadata := [("creation_ts", s.lib.formatRFC3339 s.clock.Now.UTC)] }]) := by
  refine ⟨sortAliases_sorted _, ?_, ?_, ?_, ?_⟩
  · exact (sortAliases_perm _).trans (sortAliases_perm _)
  · intro b hb
    simp only [S3.Storer.indexBody, hb]
  · intro h
    simp only [S3.Storer.Close, bind_eq, pure_eq, opBind_get, h, bne_self_eq_false]
    rfl
  · intro h
    have hne : (s.lib.md5hex s.indexBody != s.indexMD5) = true := by simpa using h
    simp only [S3.Storer.Close, bind_eq, pure_eq, opBind_get, hne, if_true, opBind_call]
    cases s.svc.PutObject _ <;> rfl

/-- C16, witness: on a Storer with an empty map whose recorded checksum is that of the
empty serialization, `Close` sends nothing; with another recorded checksum it PUTs the
index. -/
theorem C16_close_writes_index_iff_changed_witness :
    S3.Storer.Close (testStorer false (testBucket testT1 "garbage" (.ok testMetadata))) =
      .done none (testStorer false (testBucket testT1 "garbage" (.ok testMetadata))) [] ∧
    (S3.Storer.Close
      { testStorer false (testBucket testT1 "garbage" (.ok testMetadata)) with
        indexMD5 := "0123" }).calls
      = [S3.Call.putObject ⟨"index", "", [("creation_ts", "2001-09-11T12:46:40Z")]⟩] := by
  refine ⟨(C16_close_writes_index_iff_changed _).2.2.2.1 (by decide), ?_⟩
  rw [(C16_close_writes_index_iff_changed _).2.2.2.2 (by decide)]
  decide

/-- C17 (as amended): `FromAlias` followed by `ToAlias` gives back the record itself, every
field and each timestamp exactly, with its fraction of a second and its location: the
result is Equal to `a` for every `a`, and nothing is truncated. -/
theorem C17_fromAlias_toAlias_identity (a : Alias) (ia : S3.IndexAlias) :
    (S3.IndexAlias.FromAlias ia a).ToAlias = a ∧
    a.Equal (S3.IndexAlias.FromAlias ia a).ToAlias = true := by
  have h : (S3.IndexAlias.FromAlias ia a).ToAlias = a := rfl
  exact ⟨h, by rw [h]; exact alias_equal_refl a⟩

/-- C17, counterexample: a creation time of 12:46:40 and half a second comes back with its
half second, not truncated to the whole second. -/
theorem C17_fraction_of_second_kept :
    ((S3.IndexAlias.FromAlias S3.IndexAlias.zero
        { testStripIn with CreatedTS := ⟨63135809200, 500000000, 0⟩ }).ToAlias).CreatedTS
      = ⟨63135809200, 500000000, 0⟩ ∧
    ¬ ((S3.IndexAlias.FromAlias S3.IndexAlias.zero
        { testStripIn with CreatedTS := ⟨63135809200, 500000000, 0⟩ }).ToAlias).CreatedTS
      = ⟨63135809200, 0, 0⟩ := by
  decide

/-- C18: `parseTS` returns the parsed time when the key is present and its value parses as
RFC3339, and the current time of the clock, in UTC, when the key is absent or its value
does not parse; it is a total function without a failing path. -/
theorem C18_parseTS_falls_back_to_now (s : S3.Storer) (m : Metadata) (key : String) :
    (∀ ts t, m.get key = some ts → s.lib.parseRFC3339 ts = some t → s.parseTS m key = t) ∧
    (m.get key = none → s.parseTS m key = s.clock.Now.UTC) ∧
    (∀ ts, m.get key = some ts → s.lib.parseRFC3339 ts = none →
      s.parseTS m key = s.clock.Now.UTC) ∧
    (s.clock.Now.UTC).loc = 0 ∧ (s.clock.Now.UTC).SameInstant s.clock.Now := by
  refine ⟨?_, ?_, ?_, rfl, rfl, rfl⟩
  · intro ts t h1 h2
    simp [S3.Storer.parseTS, h1, h2]
  · intro h
    simp [S3.Storer.parseTS, h]
  · intro ts h1 h2
    simp [S3.Storer.parseTS, h1, h2]

/-- C18, witness: the three cases of `TestParseTS`: a good timestamp is parsed, a missing
one and a bad one give the time of the mock clock. -/
theorem C18_parseTS_falls_back_to_now_witness :
    (testStorer false (testBucket testT1 "garbage" (.ok testMetadata))).parseTS
      [("Created_ts", "2001-09-11T13:03:00Z")] "Created_ts" = testT2 ∧
    (testStorer false (testBucket testT1 "garbage" (.ok testMetadata))).parseTS
      [] "Created_ts" = testT1 ∧
    (testStorer false (testBucket testT1 "garbage" (.ok testMetadata))).parseTS
      [("Created_ts", "not-a-timestamp")] "Created_ts" = testT1 :=
  ⟨(C18_parseTS_falls_back_to_now _ [("Created_ts", "2001-09-11T13:03:00Z")] "Created_ts").1
      "2001-09-11T13:03:00Z" testT2 (by decide) (by decide),
    (C18_parseTS_falls_back_to_now _ [] "Created_ts").2.1 (by decide),
    (C18_parseTS_falls_back_to_now _ [("Created_ts", "not-a-timestamp")] "Created_ts").2.2.1
      "not-a-timestamp" (by decide) (by decide)⟩

/-- C19: on a provider opened read-only (S3, files, SQLite) each of Put, Update, Suspend,
Unsuspend and Delete returns an error, issues no request to the backend (S3 request, file
read or write, SQL statement) and leaves the state of the provider, its alias map
included, as it was. -/
theorem C19_readOnly_rejects_mutations (s : S3.Storer) (f : Files.Storer) (q : SQLite.Storer)
    (hs : s.readOnly = true) (hf : f.readOnly = true) (hq : q.readOnly = true)
    (a : Alias) (updateModified : Bool) (name domain : String) :
    ((∃ err, S3.Storer.Put a updateModified s = .done (some err) s []) ∧
     (∃ err, S3.Storer.Update a updateModified s = .done (some err) s []) ∧
     (∃ err, S3.Storer.Suspend name domain s = .done (some err) s []) ∧
     (∃ err, S3.Storer.Unsuspend name domain s = .done (some err) s []) ∧
     (∃ err, S3.Storer.Delete name domain s = .done (some err) s [])) ∧
    ((∃ err, Files.Storer.Put a updateModified f = .done (some err) f []) ∧
     (∃ err, Files.Storer.Update a updateModified f = .done (some err) f []) ∧
     (∃ err, Files.Storer.Suspend name domain f = .done (some err) f []) ∧
     (∃ err, Files.Storer.Unsuspend name domain f = .done (some err) f []) ∧
     (∃ err, Files.Storer.Delete name domain f = .done (some err) f [])) ∧
    ((∃ err, SQLite.Storer.Put a updateModified q = .done (some err) q []) ∧
     (∃ err, SQLite.Storer.Update a updateModified q = .done (some err) q []) ∧
     (∃ err, SQLite.Storer.Suspend name domain q = .done (some err) q []) ∧
     (∃ err, SQLite.Storer.Unsuspend name domain q = .done (some err) q []) ∧
     (∃ err, SQLite.Storer.Delete name domain q = .done (some err) q [])) := by
  refine ⟨⟨?_, ?_, ?_, ?_, ?_⟩, ⟨?_, ?_, ?_, ?_, ?_⟩, ⟨?_, ?_, ?_, ?_, ?_⟩⟩
  · exact ⟨_, by rw [S3.Storer.Put, bind_get, if_pos hs, pure_run]⟩
  · exact ⟨_, by rw [S3.Storer.Update, bind_get, if_pos hs, pure_run]⟩
  · exact ⟨_, by rw [S3.Storer.Suspend, S3.Storer.setSuspended, bind_get, if_pos hs, pure_run]⟩
  · exact ⟨_, by
      rw [S3.Storer.Unsuspend, S3.Storer.setSuspended, bind_get, if_pos hs, pure_run]⟩
  · exact ⟨_, by rw [S3.Storer.Delete, bind_get, if_pos hs, pure_run]⟩
  · exact ⟨_, by rw [Files.Storer.Put, bind_get, if_pos hf, pure_run]⟩
  · exact ⟨_, by rw [Files.Storer.Update, bind_get, if_pos hf, pure_run]⟩
  · exact ⟨_, by
      rw [Files.Storer.Suspend, Files.Storer.suspension, bind_get, if_pos hf, pure_run]⟩
  · exact ⟨_, by
      rw [Files.Storer.Unsuspend, Files.Storer.suspension, bind_get, if_pos hf, pure_run]⟩
  · exact ⟨_, by rw [Files.Storer.Delete, bind_get, if_pos hf, pure_run]⟩
  · exact ⟨_, by rw [SQLite.Storer.Put, bind_get, if_pos hq, pure_run]⟩
  · exact ⟨_, by rw [SQLite.Storer.Update, SQLite.Storer.Put, bind_get, if_pos hq, pure_run]⟩
  · exact ⟨_, by
      rw [SQLite.Storer.Suspend, SQLite.Storer.execOnAlias, bind_get, if_pos hq, pure_run]⟩
  · exact ⟨_, by
      rw [SQLite.Storer.Unsuspend, SQLite.Storer.execOnAlias, bind_get, if_pos hq, pure_run]⟩
  · exact ⟨_, by
      rw [SQLite.Storer.Delete, SQLite.Storer.execOnAlias, bind_get, if_pos hq, pure_run]⟩

/-- C19, witness: the three providers of the tests, opened read-only; `Put` of the test
record is refused by each. -/
theorem C19_readOnly_rejects_mutations_witness :
    (∃ err, S3.Storer.Put testAddAlias true
      (testStorer true (testBucket testT1 "garbage" (.ok testMetadata)))
        = .done (some err)
          (testStorer true (testBucket testT1 "garbage" (.ok testMetadata))) []) ∧
    (∃ err, Files.Storer.Put testAddAlias true (testFilesStorer true)
        = .done (some err) (testFilesStorer true) []) ∧
    (∃ err, SQLite.Storer.Put testAddAlias true (testSQLiteStorer true)
        = .done (some err) (testSQLiteStorer true) []) :=
  ⟨(C19_readOnly_rejects_mutations _ (testFilesStorer true) (testSQLiteStorer true)
      rfl rfl rfl testAddAlias true "foo" "bar.com").1.1,
    (C19_readOnly_rejects_mutations
      (testStorer true (testBucket testT1 "garbage" (.ok testMetadata)))
      (testFilesStorer true) (testSQLiteStorer true)
      rfl rfl rfl testAddAlias true "foo" "bar.com").2.1.1,
    (C19_readOnly_rejects_mutations
      (testStorer true (testBucket testT1 "garbage" (.ok testMetadata)))
      (testFilesStorer true) (testSQLiteStorer true)
      rfl rfl rfl testAddAlias true "foo" "bar.com").2.2.1⟩

/-- C20, the code on backends that do not hold `foo@baz.com`: the S3 provider, whose HEAD
is answered `NotFound`, returns (nil, nil); the files provider, whose file cannot be read,
and the SQLite provider, whose query selects no row, return nil and an error. -/
theorem C20_get_missing_is_error_in_files_and_sqlite :
    (S3.Storer.Get "foo" "baz.com"
      (testStorer false (testBucket testT1 "garbage" (.ok testMetadata)))).value
      = some (none, none) ∧
    (Files.Storer.Get "foo" "baz.com" (testFilesStorer false)).value
      = some (none,
          some (Err.new "open /tmp/aliases/alias-foo-baz.com: no such file or directory")) ∧
    (SQLite.Storer.Get "foo" "baz.com" (testSQLiteStorer false)).value
      = some (none, some (Err.new "sql: no rows in result set")) := by
  decide


/-- C21: on every state of an S3 or files Storer, `Search(f, m)` returns no error, sends
no request, leaves the Storer as it is, and returns a rearrangement of the records of the
alias map for which `Filter(f, m)` is true (one per entry of the map), in ascending order
of Domain and then Alias. -/
theorem C21_search_returns_sorted_matches (s : S3.Storer) (fs : Files.Storer) (f : Filter)
    (m : Bool) :
    (∃ r, S3.Storer.Search f m s = .done (r, none) s [] ∧
      r.Perm ((s.aliases.range.map (fun e => e.2)).filter (fun a => a.Filter f m)) ∧
      r.Pairwise
        (fun a b => a.Domain < b.Domain ∨ (a.Domain = b.Domain ∧ a.Alias ≤ b.Alias))) ∧
    (∃ r, Files.Storer.Search f m fs = .done (r, none) fs [] ∧
      r.Perm ((fs.aliases.range.map (fun e => e.2)).filter (fun a => a.Filter f m)) ∧
      r.Pairwise
        (fun a b => a.Domain < b.Domain ∨ (a.Domain = b.Domain ∧ a.Alias ≤ b.Alias))) := by
  constructor
  · refine ⟨_, ?_, sortAliases_perm _, sortAliases_ascending _⟩
    have h := foldl_filter_values (fun a => a.Filter f m) s.aliases.range []
    simp only [List.nil_append] at h
    simp only [S3.Storer.Search, bind_eq, pure_eq, opBind_get, opPure_run, h]
  · refine ⟨_, ?_, sortAliases_perm _, sortAliases_ascending _⟩
    have h := foldl_filter_values (fun a => a.Filter f m) fs.aliases.range []
    simp only [List.nil_append] at h
    simp only [Files.Storer.Search, bind_eq, pure_eq, opBind_get, opPure_run, h]

/-- C22: the loop of `syncCmdRun` is the carrying out of a plan that has, for each entry
of the source map in turn, an add when the destination map has no entry under its key, an
update with the unified diff of the two records when it has one that is not Equal, and
nothing when it has an Equal one; the plan has nothing else (no entry for a key of the
destination only, no deletion). A declined action leaves the destination as it is: when
every action is declined the run ends with the destination unchanged and no request sent. -/
theorem C22_sync_plan_and_declined_actions {σ κ : Type} (env : Cmd.Sync σ κ) (yes : Bool)
    (destMap : AliasesMap) (entries : List (String × Alias)) :
    Cmd.syncLoop env yes destMap entries
      = Cmd.applyPlan env yes (entries.filterMap (Cmd.planFor env destMap)) ∧
    (∀ k v, destMap.get k = none →
      Cmd.planFor env destMap (k, v) = some (Cmd.Action.add v)) ∧
    (∀ k v d, destMap.get k = some d → v.Equal d = false →
      Cmd.planFor env destMap (k, v) = some (Cmd.Action.update v (env.UnifiedDiff v d))) ∧
    (∀ k v d, destMap.get k = some d → v.Equal d = true →
      Cmd.planFor env destMap (k, v) = none) ∧
    (∀ act rest s, Cmd.confirms env yes act = false →
      (Cmd.applyPlan env yes (act :: rest) s).state = (Cmd.applyPlan env yes rest s).state ∧
      (Cmd.applyPlan env yes (act :: rest) s).calls = (Cmd.applyPlan env yes rest s).calls) ∧
    (∀ acts s, (∀ act ∈ acts, Cmd.confirms env yes act = false) →
      Cmd.applyPlan env yes acts s = .done (acts, none) s []) := by
  refine ⟨syncLoop_eq_applyPlan env yes destMap entries, ?_, ?_, ?_, ?_, ?_⟩
  · intro k v h
    simp [Cmd.planFor, h]
  · intro k v d h he
    simp [Cmd.planFor, h, he]
  · intro k v d h he
    simp [Cmd.planFor, h, he]
  · intro act rest s h
    rw [Cmd.applyPlan, if_neg (by simp [h])]
    cases hr : Cmd.applyPlan env yes rest s <;>
      simp [Op.bind, hr, Op.pure, Res.prepend, Res.state, Res.calls]
  · intro acts s h
    exact applyPlan_declined env yes acts s h

/-- C22, witness: the sync scenario with source `a@x.com`, `b@x.com` and destination
`a@x.com` with another description: the plan is an update of `a@x.com` with its diff and
an add of `b@x.com`, and with an operator who declines both the destination is unchanged. -/
theorem C22_sync_plan_and_declined_actions_witness :
    (Aliases.ToMap testSyncSource).range.reverse.filterMap
        (Cmd.planFor testSyncDeclining (Aliases.ToMap testSyncDest))
      = [Cmd.Action.update ⟨"a", "x.com", [], "", false, Time.zero, Time.zero, Time.zero⟩ "diff",
         Cmd.Action.add ⟨"b", "x.com", [], "", false, Time.zero, Time.zero, Time.zero⟩] ∧
    (Cmd.syncLoop testSyncDeclining false (Aliases.ToMap testSyncDest)
        (Aliases.ToMap testSyncSource).range testStorerHolding).calls = [] ∧
    (Cmd.syncLoop testSyncDeclining false (Aliases.ToMap testSyncDest)
        (Aliases.ToMap testSyncSource).range testStorerHolding).state.aliases.range
      = testStorerHolding.aliases.range := by
  have h := C22_sync_plan_and_declined_actions testSyncDeclining false
    (Aliases.ToMap testSyncDest) (Aliases.ToMap testSyncSource).range
  rw [h.1, h.2.2.2.2.2 _ testStorerHolding (by decide)]
  exact ⟨by decide, rfl, rfl⟩

/-- C23 (counterexample): the bucket of the tests with both objects last modified at
13:03:00. `Open` leaves `index` before `alias-foo@bar.com`, although the key
`alias-foo@bar.com` is the smaller one: objects of equal time are not in ascending key
order. -/
theorem C23_equal_times_not_ascending_keys :
    (testBucket testT2 "garbage" (.ok testMetadata)).ListObjectsV2Pages.2 = none ∧
    (S3.Storer.Open false
        (testStorer false (testBucket testT2 "garbage" (.ok testMetadata)))).state.objects =
      [⟨"index", testT2⟩, ⟨"alias-foo@bar.com", testT2⟩] ∧
    "alias-foo@bar.com" < "index" := by
  decide

/-- C23 (amended): when the listing succeeds, the objects `Open` leaves in the Storer are
the objects it held and listed, rearranged so that an object stands before another only
if it was modified later, or at the same instant and its key is not the smaller one:
descending last-modified order, and descending key order among equal times. -/
theorem C23_open_listing_descending_time_then_key (readOnly : Bool) (s : S3.Storer)
    (hlist : s.svc.ListObjectsV2Pages.2 = none) :
    (S3.Storer.Open readOnly s).state.objects.Pairwise S3.NewerFirst ∧
    (S3.Storer.Open readOnly s).state.objects.Perm
      (s.objects ++ s.svc.ListObjectsV2Pages.1) := by
  rw [open_objects readOnly s hlist]
  exact ⟨sortReverse_sorted _, sortReverse_perm _⟩

/-- C23 (witness): the amended statement on the bucket of the tests with both objects
last modified at 13:03:00. -/
theorem C23_open_listing_descending_time_then_key_witness :
    (testBucket testT2 "garbage" (.ok testMetadata)).ListObjectsV2Pages.2 = none ∧
    (S3.Storer.Open false
        (testStorer false (testBucket testT2 "garbage" (.ok testMetadata)))).state.objects.Pairwise
      S3.NewerFirst ∧
    (S3.Storer.Open false
        (testStorer false (testBucket testT2 "garbage" (.ok testMetadata)))).state.objects.Perm
      ((testStorer false (testBucket testT2 "garbage" (.ok testMetadata))).objects ++
        (testBucket testT2 "garbage" (.ok testMetadata)).ListObjectsV2Pages.1) :=
  ⟨rfl, C23_open_listing_descending_time_then_key false
    (testStorer false (testBucket testT2 "garbage" (.ok testMetadata))) rfl⟩

/-- C24: `indexBeforeAliasCount` returns the number of objects whose key starts with
`alias-`, and `true` exactly when an object named `index` stands before the first such
object: the listing splits into a front without `alias-` keys that holds `index`, and the
rest. When no key starts with `alias-`, that is when `index` occurs anywhere. -/
theorem C24_indexBeforeAliasCount_meaning (objs : List S3.Object) :
    (S3.indexBeforeAliasCount objs).2
      = (objs.filter (fun o => HasPrefix o.Key "alias-")).length ∧
    ((S3.indexBeforeAliasCount objs).1 = true ↔ S3.IndexPrecedesAliases objs) ∧
    ((∀ o ∈ objs, HasPrefix o.Key "alias-" = false) →
      ((S3.indexBeforeAliasCount objs).1 = true ↔ ∃ o ∈ objs, o.Key = "index")) := by
  have hiff : (S3.indexBeforeAliasCount objs).1 = true ↔ S3.IndexPrecedesAliases objs := by
    rw [indexBeforeAliasCount_eq, indexPrecedesAliases_iff]
  refine ⟨?_, hiff, ?_⟩
  · rw [indexBeforeAliasCount_eq]
    simp [S3.aliasKeys]
  · intro hno
    rw [hiff]
    constructor
    · rintro ⟨front, rest, rfl, ⟨o, ho, hk⟩, -⟩
      exact ⟨o, List.mem_append_left _ ho, hk⟩
    · rintro ⟨o, ho, hk⟩
      exact ⟨objs, [], (List.append_nil _).symm, ⟨o, ho, hk⟩, hno⟩

/-- C25, the code on an S3 Storer whose map holds `foo@bar.com`: `Delete` returns nil
after one DELETE request, and the map still has the entry; a later `Search` returns the
record and the index that `Close` serializes lists it. `Delete` of the files provider
removes the entry from its map. -/
theorem C25_s3_delete_keeps_entry_in_map :
    (S3.Storer.Delete "foo" "bar.com" testStorerHolding).value = some none ∧
    (S3.Storer.Delete "foo" "bar.com" testStorerHolding).calls
      = [S3.Call.deleteObject "alias-foo@bar.com"] ∧
    (S3.Storer.Delete "foo" "bar.com" testStorerHolding).state.aliases.get "foo@bar.com"
      = some testAddAlias ∧
    (S3.Storer.Search Filter.zero false
        (S3.Storer.Delete "foo" "bar.com" testStorerHolding).state).value
      = some ([testAddAlias], none) ∧
    (S3.Storer.Delete "foo" "bar.com" testStorerHolding).state.indexBody = "foo@bar.com" ∧
    (Files.Storer.Delete "foo" "bar.com" testFilesStorerHolding).state.aliases.get
        "foo@bar.com" = none := by
  decide

/-- C26, the code on a destination whose map holds `foo@bar.com`, with the record of the
source (same key, another description): `Put(record, false)` of the S3 Storer panics in
`Add` before any request and leaves the old entry; that of the files Storer panics in
`Add` after it has written the file; the loop of `syncCmdRun` with a confirmed update
ends in that panic. -/
theorem C26_put_on_existing_key_panics :
    ((S3.Storer.Put testAddAliasChanged false testStorerHolding).value = none ∧
     (S3.Storer.Put testAddAliasChanged false testStorerHolding).calls = [] ∧
     (S3.Storer.Put testAddAliasChanged false testStorerHolding).state.aliases.get
        "foo@bar.com" = some testAddAlias) ∧
    ((Files.Storer.Put testAddAliasChanged false testFilesStorerHolding).value = none ∧
     (Files.Storer.Put testAddAliasChanged false testFilesStorerHolding).calls
        = [Files.Call.writeFile "/tmp/aliases/alias-foo-bar.com" "foo@bar.com"] ∧
     (Files.Storer.Put testAddAliasChanged false testFilesStorerHolding).state.aliases.get
        "foo@bar.com" = some testAddAlias) ∧
    (Cmd.syncLoop testSyncToS3 true (Aliases.ToMap [testAddAlias])
        [("foo@bar.com", testAddAliasChanged)] testStorerHolding).value = none := by
  decide

/-- C27: with `matchAny = true` and at least one of the four patterns unset, the result
of `Filter` is decided by the two exclusion flags alone: a record passes exactly when it
is not excluded, whatever its alias, domain, addresses and description and whatever the
configured patterns match. -/
theorem C27_filter_any_with_unset_pattern (a : Alias) (f : Filter)
    (h : f.Alias = none ∨ f.Domain = none ∨ f.EmailAddress = none ∨ f.Description = none) :
    a.Filter f true =
      (!(f.ExcludeSuspended && a.Suspended) && !(f.ExcludeEnabled && !a.Suspended)) := by
  obtain ⟨fa, fd, fe, fdesc, xs, xe⟩ := f
  simp only at h
  cases fa <;> cases fd <;> cases fe <;> cases fdesc <;> cases xs <;> cases xe <;>
    cases hs : a.Suspended <;> simp_all [Alias.Filter]

/-- C27, witness: a filter with only an alias pattern, on a record whose alias the pattern
does not match: the record is accepted. -/
theorem C27_filter_any_with_unset_pattern_witness :
    Alias.Filter
      ⟨"missing search term", "", [], "", false, Time.zero, Time.zero, Time.zero⟩
      ⟨some testSearchTerm, none, none, none, false, false⟩ true = true :=
  C27_filter_any_with_unset_pattern _ _ (Or.inr (Or.inl rfl))

/-- C28: an address list none of whose addresses contains a comma is stored as one
comma-joined string (the `email_addresses` metadata of the S3 request, the addresses
column of the SQLite row) and splitting that string at commas, as the S3 scan and the
SQLite row conversion do, gives the list back when it is non-empty; the empty list comes
back as the one-element list holding the empty string. -/
theorem C28_address_list_join_split (a : Alias)
    (hc : ∀ x ∈ a.EmailAddresses, ',' ∉ x.toList) :
    (∀ (s : S3.Storer) (u : Bool),
      (s.putAliasInput a u).Metadata.get "email_addresses" =
        some (joinComma a.EmailAddresses)) ∧
    (∀ sa : SQLite.Alias, sa.emailAddresses = joinComma a.EmailAddresses →
      sa.toAlias.EmailAddresses =
        if a.EmailAddresses = [] then [""] else a.EmailAddresses) ∧
    splitComma (joinComma a.EmailAddresses) =
      if a.EmailAddresses = [] then [""] else a.EmailAddresses := by
  refine ⟨fun s u => ?_, fun sa hsa => ?_, splitComma_joinComma _ hc⟩
  · simp [S3.Storer.putAliasInput, Metadata.get, List.lookup]
  · simp only [SQLite.Alias.toAlias, hsa]
    exact splitComma_joinComma _ hc

/-- C28 (witness): the record `foo@bar.com` of the tests, whose addresses hold no comma. -/
theorem C28_address_list_join_split_witness :
    (∀ x ∈ testAddAlias.EmailAddresses, ',' ∉ x.toList) ∧
    splitComma (joinComma testAddAlias.EmailAddresses) =
      if testAddAlias.EmailAddresses = [] then [""] else testAddAlias.EmailAddresses :=
  ⟨by decide, (C28_address_list_join_split testAddAlias (by decide)).2.2⟩

/-- C29: on a Storer whose map is empty, the collector of the full scan, given records
with pairwise distinct keys in any two orders, returns in both (no panic, no request) and
leaves maps that answer every lookup alike: a key is bound to a record exactly when that
record was delivered and has that key. -/
theorem C29_collector_map_independent_of_arrival_order (s : S3.Storer) (l₁ l₂ : Aliases)
    (hs : s.aliases = some ∅) (hk : (l₁.map Alias.Key).Nodup) (hp : l₁.Perm l₂) :
    ∃ m₁ m₂ : AliasesMap,
      S3.Storer.assembleAliases (l₁.map some) s = .done () { s with aliases := m₁ } [] ∧
      S3.Storer.assembleAliases (l₂.map some) s = .done () { s with aliases := m₂ } [] ∧
      (∀ k b, m₁.get k = some b ↔ b ∈ l₁ ∧ b.Key = k) ∧
      (∀ k, m₁.get k = m₂.get k) ∧
      m₁.range.Perm m₂.range := by
  have hk₂ : (l₂.map Alias.Key).Nodup := (hp.map Alias.Key).nodup_iff.1 hk
  refine ⟨Aliases.ToMap l₁, Aliases.ToMap l₂,
    assembleAliases_eq l₁ s ∅ hs hk (fun a _ => AList.not_mem_empty _),
    assembleAliases_eq l₂ s ∅ hs hk₂ (fun a _ => AList.not_mem_empty _),
    fun k b => toMap_get_eq_some l₁ hk k b, fun k => ?_, ?_⟩
  · cases h : (Aliases.ToMap l₂).get k with
    | none =>
      rw [toMap_get_eq_none l₂ hk₂] at h
      rw [toMap_get_eq_none l₁ hk]
      exact fun b hb => h b (hp.subset hb)
    | some b =>
      rw [toMap_get_eq_some l₂ hk₂] at h
      rw [toMap_get_eq_some l₁ hk]
      exact ⟨hp.symm.subset h.1, h.2⟩
  · rw [toMap_range l₁ hk, toMap_range l₂ hk₂]
    exact (((List.reverse_perm l₁).trans hp).trans (List.reverse_perm l₂).symm).map _

/-- C29 (witness): the records `a@x.com`, `b@x.com` delivered in that order and in the
reverse order to the empty Storer of the tests. -/
theorem C29_collector_map_independent_of_arrival_order_witness :
    (testStorer false (testBucket testT1 "garbage" (.ok testMetadata))).aliases = some ∅ ∧
    (testSyncSource.map Alias.Key).Nodup ∧
    testSyncSource.Perm testSyncSource.reverse ∧
    ∃ m₁ m₂ : AliasesMap,
      S3.Storer.assembleAliases (testSyncSource.map some)
          (testStorer false (testBucket testT1 "garbage" (.ok testMetadata))) =
        .done () { testStorer false (testBucket testT1 "garbage" (.ok testMetadata)) with
          aliases := m₁ } [] ∧
      S3.Storer.assembleAliases (testSyncSource.reverse.map some)
          (testStorer false (testBucket testT1 "garbage" (.ok testMetadata))) =
        .done () { testStorer false (testBucket testT1 "garbage" (.ok testMetadata)) with
          aliases := m₂ } [] ∧
      (∀ k b, m₁.get k = some b ↔ b ∈ testSyncSource ∧ b.Key = k) ∧
      (∀ k, m₁.get k = m₂.get k) ∧
      m₁.range.Perm m₂.range :=
  ⟨rfl, by decide, (List.reverse_perm _).symm,
    C29_collector_map_independent_of_arrival_order _ _ _ rfl (by decide)
      (List.reverse_perm _).symm⟩

end Aliasman
